import Mathlib

set_option maxHeartbeats 1000000

/-!
Verification of the CV-builder extraction and layout pipeline.

The embedding models parser.py, layout_generator.py and
generator_ui_layout.py. Results of calls to the external inference service
are passed in as `Except Unit` values: `error` stands for any exception
raised inside the corresponding try block (service error, or a response
whose text fails json.loads); `ok` carries the parsed response. Parsed JSON
is modeled by `JValue`; a Python `None` inside parsed data is `JValue.null`.
-/

/-- Characters Python's default str.strip removes: exactly the characters for
which Python's str.isspace holds. -/
def isPyWS (c : Char) : Bool :=
  c = ' ' || c = '\t' || c = '\n' || c = '\r' || c = '\x0b' || c = '\x0c' ||
  c = '\x1c' || c = '\x1d' || c = '\x1e' || c = '\x1f' || c = '\x85' || c = '\xa0' ||
  c = '\u1680' || ('\u2000' ≤ c && c ≤ '\u200A') || c = '\u2028' || c = '\u2029' ||
  c = '\u202F' || c = '\u205F' || c = '\u3000'

/-- Python str.strip() with no argument: drop leading and trailing whitespace. -/
def pyStrip (cs : List Char) : List Char :=
  ((cs.dropWhile isPyWS).reverse.dropWhile isPyWS).reverse

/-- Python str.strip() on a string. -/
def pyStripStr (s : String) : String := ⟨pyStrip s.data⟩

/-- Python str.replace for a single-character pattern: every occurrence of old
is replaced by new. parser.py lines 26 and 29 use only single-character
patterns, for which str.replace is this character-wise expansion. -/
def replaceChar (old : Char) (new : List Char) : List Char → List Char
  | [] => []
  | c :: rest => (if c = old then new else [c]) ++ replaceChar old new rest

/-- parser.py line 26: t = text.replace two bullet glyphs by a hyphen-space
pair and the en-dash by a plain hyphen, in this order. -/
def replBullets (cs : List Char) : List Char :=
  replaceChar '–' ['-'] (replaceChar '●' ['-', ' '] (replaceChar '•' ['-', ' '] cs))

/-- Horizontal whitespace of the character class in parser.py line 27. -/
def isHT (c : Char) : Bool := c = ' ' || c = '\t'

/-- parser.py line 27, re.sub replacing a run of spaces and tabs followed by a
newline with that newline: the first argument accumulates (reversed) the run
of spaces and tabs read so far; the run is dropped when a newline follows it
and flushed otherwise. -/
def subWsNlAux (pend : List Char) : List Char → List Char
  | [] => pend.reverse
  | c :: rest =>
    if c = '\n' then '\n' :: subWsNlAux [] rest
    else if isHT c then subWsNlAux (c :: pend) rest
    else pend.reverse ++ c :: subWsNlAux [] rest

/-- parser.py line 27 as a whole-string transformation. -/
def subWsNl (cs : List Char) : List Char := subWsNlAux [] cs

/-- Length of a collapsed newline run: three or more newlines become exactly
two (parser.py line 28). -/
def nlRun (n : Nat) : Nat := if 3 ≤ n then 2 else n

/-- parser.py line 28, re.sub replacing each run of three or more newlines
with two: the first argument counts the newlines of the current run. -/
def subNnnAux (n : Nat) : List Char → List Char
  | [] => List.replicate (nlRun n) '\n'
  | c :: rest =>
    if c = '\n' then subNnnAux (n + 1) rest
    else List.replicate (nlRun n) '\n' ++ c :: subNnnAux 0 rest

/-- parser.py line 28 as a whole-string transformation. -/
def subNnn (cs : List Char) : List Char := subNnnAux 0 cs

/-- parser.py line 29: the four single-character replaces straightening curly
quotes and apostrophes, in source order. -/
def replQuotes (cs : List Char) : List Char :=
  replaceChar '”' ['\x22'] (replaceChar '“' ['\x22']
    (replaceChar '’' ['\x27'] (replaceChar '‘' ['\x27'] cs)))

/-- parser.py preclean (lines 24-30) on character lists: bullet replacement,
trailing horizontal whitespace before newlines, newline-run collapsing, quote
straightening, strip. -/
def precleanL (cs : List Char) : List Char :=
  pyStrip (replQuotes (subNnn (subWsNl (replBullets cs))))

/-- parser.py preclean (lines 24-30). -/
def preclean (s : String) : String := ⟨precleanL s.data⟩

/-- The letters-only normal form used by wipe_if_not_in_source (parser.py
lines 36-37): lowercase the string, then keep only the letters a to z. -/
def lettersOnly (s : String) : List Char :=
  (s.data.map Char.toLower).filter fun c => 'a' ≤ c && c ≤ 'z'

/-- Python substring membership, v in s, on character lists. -/
def listContains (needle : List Char) : List Char → Bool
  | [] => needle.isEmpty
  | c :: rest => needle.isPrefixOf (c :: rest) || listContains needle rest

/-- parser.py wipe_if_not_in_source (lines 33-38). A Python None argument or
result is the none case; the Python falsiness test on the string argument is
emptiness. -/
def wipe_if_not_in_source (value : Option String) (source : String) : Option String :=
  match value with
  | none => none
  | some v =>
    if v = "" then some v
    else if listContains (lettersOnly v) (lettersOnly source) then some v else none

/-- JSON values as Python's json module produces them. -/
inductive JValue where
  | null
  | boolean (b : Bool)
  | num (n : Int)
  | str (s : String)
  | arr (elems : List JValue)
  | obj (fields : List (String × JValue))

/-- Python truthiness of a JSON value. -/
def pyTruthyJ : JValue → Bool
  | .null => false
  | .boolean b => b
  | .num n => n != 0
  | .str s => s != ""
  | .arr xs => !xs.isEmpty
  | .obj fs => !fs.isEmpty

/-- Python dict assignment d[k] = v on an association list: replace the value
at an existing key, else append the new key at the end. -/
def assocSet {α : Type} (pd : List (String × α)) (k : String) (v : α) :
    List (String × α) :=
  match pd with
  | [] => [(k, v)]
  | (k', v') :: rest => if k' = k then (k, v) :: rest else (k', v') :: assocSet rest k v

/-- Python dict lookup d.get(k): the value at the first matching key. -/
def assocGet {α : Type} (pd : List (String × α)) (k : String) : Option α :=
  match pd with
  | [] => none
  | (k', v') :: rest => if k' = k then some v' else assocGet rest k

/-- Python dict membership, k in d. -/
def assocHas {α : Type} (pd : List (String × α)) (k : String) : Bool :=
  pd.any fun kv => kv.1 == k

/-- Python segments.get(key, "") on the segment dictionary. -/
def segGet (segments : List (String × String)) (k : String) : String :=
  (assocGet segments k).getD ""

/-- Zero value of the skills section (parser.py lines 277 and 300). -/
def skillsZero : JValue :=
  .obj [("clinical", .arr []), ("technical", .arr []), ("soft", .arr []),
    ("tools", .arr [])]

/-- parser.py parse_work_experience_chunk (lines 212-241): short-circuit on a
whitespace-only chunk, otherwise the service-call result with an empty-list
fallback. The Bool records whether the inference service was reached. -/
def parse_work_experience_chunk (chunk : String) (resp : Except Unit JValue) :
    JValue × Bool :=
  if pyStripStr chunk = "" then (.arr [], false)
  else ((match resp with | .ok v => v | .error _ => .arr []), true)

/-- parser.py parse_education_chunk (lines 243-272). -/
def parse_education_chunk (chunk : String) (resp : Except Unit JValue) :
    JValue × Bool :=
  if pyStripStr chunk = "" then (.arr [], false)
  else ((match resp with | .ok v => v | .error _ => .arr []), true)

/-- parser.py parse_skills_chunk (lines 274-300). -/
def parse_skills_chunk (chunk : String) (resp : Except Unit JValue) :
    JValue × Bool :=
  if pyStripStr chunk = "" then (skillsZero, false)
  else ((match resp with | .ok v => v | .error _ => skillsZero), true)

/-- parser.py parse_contact_info_chunk (lines 302-328). -/
def parse_contact_info_chunk (chunk : String) (resp : Except Unit JValue) :
    JValue × Bool :=
  if pyStripStr chunk = "" then (.obj [], false)
  else ((match resp with | .ok v => v | .error _ => .obj []), true)

/-- parser.py parse_summary_chunk (lines 330-355): plain-text response,
stripped; empty string both on a whitespace-only chunk and on failure. -/
def parse_summary_chunk (chunk : String) (resp : Except Unit String) :
    String × Bool :=
  if pyStripStr chunk = "" then ("", false)
  else ((match resp with | .ok s => pyStripStr s | .error _ => ""), true)

/-- parser.py parse_certifications_chunk (lines 357-386). -/
def parse_certifications_chunk (chunk : String) (resp : Except Unit JValue) :
    JValue × Bool :=
  if pyStripStr chunk = "" then (.arr [], false)
  else ((match resp with | .ok v => v | .error _ => .arr []), true)

/-- parser.py parse_projects_chunk (lines 388-417). -/
def parse_projects_chunk (chunk : String) (resp : Except Unit JValue) :
    JValue × Bool :=
  if pyStripStr chunk = "" then (.arr [], false)
  else ((match resp with | .ok v => v | .error _ => .arr []), true)

/-- parser.py parse_languages_chunk (lines 419-443). -/
def parse_languages_chunk (chunk : String) (resp : Except Unit JValue) :
    JValue × Bool :=
  if pyStripStr chunk = "" then (.arr [], false)
  else ((match resp with | .ok v => v | .error _ => .arr []), true)

/-- parser.py parse_awards_chunk (lines 445-469). -/
def parse_awards_chunk (chunk : String) (resp : Except Unit JValue) :
    JValue × Bool :=
  if pyStripStr chunk = "" then (.arr [], false)
  else ((match resp with | .ok v => v | .error _ => .arr []), true)

/-- Keys of the SEGMENTATION_SCHEMA properties (parser.py lines 164-179), in
source order. -/
def segmentationKeys : List String :=
  ["candidate_name_text", "contact_info_section", "summary_section",
   "work_experience_section", "education_section", "skills_section",
   "certifications_section", "projects_section", "languages_section",
   "awards_section"]

/-- parser.py segment_resume_text (lines 182-209): the ok case carries the
parsed, schema-shaped segment dictionary; on any failure the fallback maps
every schema key to the empty string. -/
def segment_resume_text (text : String)
    (resp : Except Unit (List (String × String))) : List (String × String) :=
  match resp with
  | .ok segments => segments
  | .error _ => segmentationKeys.map fun k => (k, "")

/-- Python evaluation of "name" in x for a JSON value x: dictionary key
membership, list element membership, substring membership for strings, and a
TypeError for every other type. -/
def jMemName : JValue → Except Unit Bool
  | .obj fs => .ok (assocHas fs "name")
  | .arr xs => .ok (xs.any fun v => match v with | .str s => s == "name" | _ => false)
  | .str s => .ok (listContains "name".data s.data)
  | _ => .error ()

/-- Python x.get of the name key: only dictionaries have .get; anything else
raises AttributeError. -/
def jGetName : JValue → Except Unit (Option JValue)
  | .obj fs => .ok (assocGet fs "name")
  | _ => .error ()

/-- Python assignment of the name key: only dictionaries accept string-key
item assignment; anything else raises. -/
def jSetName (x : JValue) (v : JValue) : Except Unit JValue :=
  match x with
  | .obj fs => .ok (.obj (assocSet fs "name" v))
  | _ => .error ()

/-- wipe_if_not_in_source applied to a value drawn from parsed JSON (parser.py
line 496): a missing key or a stored null is Python None, returned unchanged;
any falsy value is returned unchanged; a non-empty string goes through the
letters-only check; any other truthy value raises AttributeError at the
lowercasing step. -/
def wipeJ (value : Option JValue) (source : String) : Except Unit (Option JValue) :=
  match value with
  | none => .ok none
  | some v =>
    if !pyTruthyJ v then .ok (some v)
    else match v with
      | .str s =>
        .ok (if listContains (lettersOnly s) (lettersOnly source) then some (.str s)
          else none)
      | _ => .error ()

/-- A Python optional stored back into JSON: None becomes null. -/
def jOfOpt : Option JValue → JValue
  | none => .null
  | some v => v

/-- Sequencing of Python statements that may raise: an exception in the first
step propagates, a normal value feeds the continuation. -/
def exceptStep {α β : Type} (e : Except Unit α) (f : α → Except Unit β) :
    Except Unit β :=
  match e with
  | .error _ => .error ()
  | .ok a => f a

/-- parser.py lines 495-496: when contact_info is truthy and has a name key,
overwrite the name with its wiped value; errors are exceptions inside the
surrounding try block. -/
def contactNameCheck (ci : JValue) (text : String) : Except Unit JValue :=
  if pyTruthyJ ci then
    exceptStep (jMemName ci) fun hasName =>
      if hasName then
        exceptStep (jGetName ci) fun v =>
          exceptStep (wipeJ v text) fun w =>
            jSetName ci (jOfOpt w)
      else .ok ci
  else .ok ci

/-- parser.py lines 483-498, the body of the contact-info try block: parse
the contact chunk, inject the separately segmented candidate name when
non-empty, re-validate the name, and apply the final fallback of contact_info
or the empty dictionary. -/
def contactTryBlock (segments : List (String × String)) (text : String)
    (rContact : Except Unit JValue) : Except Unit JValue :=
  let ci := (parse_contact_info_chunk (segGet segments "contact_info_section") rContact).1
  let nm := segGet segments "candidate_name_text"
  exceptStep (if nm ≠ "" then jSetName ci (.str nm) else .ok ci) fun ci1 =>
    exceptStep (contactNameCheck ci1 text) fun ci2 =>
      .ok (if pyTruthyJ ci2 then ci2 else .obj [])

/-- parser.py lines 483-501: the contact_info field with its except fallback
to the empty dictionary. -/
def assembleContact (segments : List (String × String)) (text : String)
    (rContact : Except Unit JValue) : JValue :=
  match contactTryBlock segments text rContact with
  | .ok v => v
  | .error _ => .obj []

/-- Required top-level fields of RESUME_SCHEMA (parser.py lines 148-155). -/
def requiredFields : List String :=
  ["contact_info", "work_experience", "education", "skills", "projects"]

/-- Zero value injected by the completeness pass (parser.py lines 557-565). -/
def requiredZero (field : String) : JValue :=
  if field = "contact_info" then .obj []
  else if field = "skills" then skillsZero
  else .arr []

/-- parser.py lines 557-565: for every required field still absent from the
assembled dictionary, inject that field's zero value. -/
def ensureRequired (pd : List (String × JValue)) : List (String × JValue) :=
  requiredFields.foldl
    (fun pd field =>
      if assocHas pd field then pd else assocSet pd field (requiredZero field)) pd

/-- parser.py parse_resume (lines 472-571) after text extraction: the inputs
are the segment dictionary, the precleaned source text, and one service-call
result per extractor; the output is the assembled dictionary that the
function serializes to the parsed-output file. -/
def parse_resume (segments : List (String × String)) (text : String)
    (rContact rWork rEdu rSkills : Except Unit JValue)
    (rSummary : Except Unit String)
    (rCerts rProj rLang rAwards : Except Unit JValue) : List (String × JValue) :=
  let pd : List (String × JValue) := []
  let pd := assocSet pd "contact_info" (assembleContact segments text rContact)
  let pd := assocSet pd "work_experience"
    (parse_work_experience_chunk (segGet segments "work_experience_section") rWork).1
  let pd := assocSet pd "education"
    (parse_education_chunk (segGet segments "education_section") rEdu).1
  let pd := assocSet pd "skills"
    (parse_skills_chunk (segGet segments "skills_section") rSkills).1
  let pd := assocSet pd "summary"
    (.str (parse_summary_chunk (segGet segments "summary_section") rSummary).1)
  let pd := assocSet pd "certifications"
    (parse_certifications_chunk (segGet segments "certifications_section") rCerts).1
  let pd := assocSet pd "projects"
    (parse_projects_chunk (segGet segments "projects_section") rProj).1
  let pd := assocSet pd "languages"
    (parse_languages_chunk (segGet segments "languages_section") rLang).1
  let pd := assocSet pd "awards"
    (parse_awards_chunk (segGet segments "awards_section") rAwards).1
  ensureRequired pd

/-- layout_generator.py lines 101-111: the fixed default layout plan. -/
def defaultLayoutPlan : JValue :=
  .obj [("pages", .arr [
    .obj [("page", .num 1), ("content", .arr [
      .obj [("component", .str "contact_info"), ("data_key", .str "contact_info")],
      .obj [("component", .str "summary"), ("data_key", .str "summary")],
      .obj [("component", .str "work_experience"), ("data_key", .str "work_experience")],
      .obj [("component", .str "education"), ("data_key", .str "education")],
      .obj [("component", .str "skills"), ("data_key", .str "skills")]])]])]

/-- layout_generator.py generate_layout_plan (lines 41-111): resume_data and
template_style shape only the prompt; the service-call result (error = the
call threw, or its text failed json.loads) decides the returned plan. -/
def generate_layout_plan (resume_data : List (String × JValue))
    (template_style : String) (resp : Except Unit JValue) : JValue :=
  match resp with
  | .ok v => v
  | .error _ => defaultLayoutPlan

/-- Observable outcome of generate_html's layout-plan logic: the plan handed
to the template, the cache-file contents afterwards (parsed JSON), and
whether generate_layout_plan was invoked. -/
structure GenHtmlResult where
  plan : JValue
  cacheAfter : Option JValue
  calledInference : Bool

/-- generator_ui_layout.py generate_html (lines 7-49), layout-plan part: the
cache file is modeled by its parsed JSON contents (none = file absent). A
cache file whose JSON body is null reads back as Python None and is treated
as a miss, exactly as the source's None test does. -/
def generate_html (resume_data : List (String × JValue)) (template_name : String)
    (force_regenerate : Bool) (cacheFile : Option JValue)
    (resp : Except Unit JValue) : GenHtmlResult :=
  match (if force_regenerate then none else cacheFile) with
  | some JValue.null =>
    let p := generate_layout_plan resume_data template_name resp
    ⟨p, some p, true⟩
  | some plan => ⟨plan, cacheFile, false⟩
  | none =>
    let p := generate_layout_plan resume_data template_name resp
    ⟨p, some p, true⟩

/-- Top-level shape of a response conforming to a schema of type ARRAY with
OBJECT items (the work_experience, education, certifications and projects
schemas). -/
def isArrOfObj : JValue → Bool
  | .arr xs => xs.all fun v => match v with | .obj _ => true | _ => false
  | _ => false

/-- Top-level shape of a response conforming to an OBJECT schema. -/
def isObjB : JValue → Bool
  | .obj _ => true
  | _ => false

/-- Is this JSON value a string, or null for missing data? -/
def strOrNullVal : JValue → Bool
  | .str _ => true
  | .null => true
  | _ => false

/-- Top-level shape of a contact_info response: an object all of whose
property values are strings, or null for missing data, as the system
instruction requires. -/
def isObjOfStrOrNull : JValue → Bool
  | .obj fs => fs.all fun kv => strOrNullVal kv.2
  | _ => false

/-- Claim C8's reading of the bullet replacement: each of the three glyphs,
the en-dash included, becomes a hyphen-space marker. -/
def bulletMapClaim (c : Char) : List Char :=
  if c = '•' || c = '●' || c = '–' then ['-', ' '] else [c]

/-- The bullet replacement the code performs: the two bullet glyphs become a
hyphen-space marker, the en-dash a plain hyphen. -/
def bulletMapAmended (c : Char) : List Char :=
  if c = '•' || c = '●' then ['-', ' '] else if c = '–' then ['-'] else [c]

/-- One-pass character-wise expansion of a string by a character-to-string
substitution. -/
def expandBy (f : Char → List Char) (cs : List Char) : List Char :=
  (cs.map f).flatten

/-- Is the character a newline? -/
def isNl (c : Char) : Bool := c = '\n'

/-- Does the horizontal-whitespace run starting here end at a newline? -/
def runEndsAtNl (cs : List Char) : Bool :=
  match cs.dropWhile isHT with
  | d :: _ => isNl d
  | [] => false

/-- Specification reading of trailing-whitespace collapsing: a space or tab
is deleted exactly when the horizontal-whitespace run it belongs to is
followed by a newline. -/
def specT2 : List Char → List Char
  | [] => []
  | c :: rest =>
    if isHT c && runEndsAtNl rest then specT2 rest else c :: specT2 rest

/-- Does this string start with two newlines? -/
def twoNl : List Char → Bool
  | c :: d :: _ => isNl c && isNl d
  | _ => false

/-- Specification reading of newline-run collapsing, as a right fold: never
let a third newline pile onto two. -/
def specT3 : List Char → List Char
  | [] => []
  | c :: rest =>
    if c = '\n' && twoNl (specT3 rest) then specT3 rest else c :: specT3 rest

/-- Specification reading of quote straightening as a single character map. -/
def quoteMap (c : Char) : Char :=
  if c = '‘' || c = '’' then '\x27'
  else if c = '“' || c = '”' then '\x22' else c

/-- The normalization pipeline exactly as claim C8 words it: the en-dash is
replaced by a hyphen-space marker like the bullet glyphs. -/
def precleanClaimC8 (s : String) : String :=
  ⟨pyStrip ((specT3 (specT2 (expandBy bulletMapClaim s.data))).map quoteMap)⟩

/-- The normalization pipeline as amended: identical to claim C8's wording
except that the en-dash is replaced by a plain hyphen. -/
def precleanAmendedC8 (s : String) : String :=
  ⟨pyStrip ((specT3 (specT2 (expandBy bulletMapAmended s.data))).map quoteMap)⟩

/-- No space or tab stands immediately before a newline. -/
def wsNlFree : List Char → Bool
  | c :: d :: rest => !(isHT c && isNl d) && wsNlFree (d :: rest)
  | _ => true

/-- No three consecutive newlines occur. -/
def noTripleNl : List Char → Bool
  | a :: b :: c :: rest => !(isNl a && isNl b && isNl c) && noTripleNl (b :: c :: rest)
  | _ => true

/-- No curly quote or curly apostrophe occurs. -/
def noCurly (cs : List Char) : Bool :=
  cs.all fun c => !(c = '‘' || c = '’' || c = '“' || c = '”')

/-- The completeness contract of parse_resume for claim C1: all five required
fields are present and non-null, and each extractor failure leaves its
field's canonical zero value (for contact_info provided the segmenter
produced no candidate name to inject). -/
def parse_resume_complete (segments : List (String × String))
    (rContact rWork rEdu rSkills rProj : Except Unit JValue)
    (record : List (String × JValue)) : Prop :=
  (∀ f ∈ requiredFields, ∃ v, assocGet record f = some v ∧ v ≠ JValue.null) ∧
  (rWork = Except.error () → assocGet record "work_experience" = some (JValue.arr [])) ∧
  (rEdu = Except.error () → assocGet record "education" = some (JValue.arr [])) ∧
  (rSkills = Except.error () → assocGet record "skills" = some skillsZero) ∧
  (rProj = Except.error () → assocGet record "projects" = some (JValue.arr [])) ∧
  (rContact = Except.error () → segGet segments "candidate_name_text" = "" →
    assocGet record "contact_info" = some (JValue.obj []))

/-! Helper lemmas. -/

/-- An all-whitespace string strips to the empty string. -/
theorem pyStrip_eq_nil_of_all_ws {cs : List Char} (h : ∀ c ∈ cs, isPyWS c = true) :
    pyStrip cs = [] := by
  simp [pyStrip, List.dropWhile_eq_nil_iff.mpr h]

/-- The empty needle is a substring of everything. -/
theorem listContains_nil (hay : List Char) : listContains [] hay = true := by
  cases hay <;> simp [listContains, List.isPrefixOf]

/-! Claim theorems. -/

/-- Claim C2: for every record and style, when the inference call during
layout generation throws or its response is not parseable JSON,
generate_layout_plan returns exactly the fixed default plan: a single page
whose content is, in order, contact_info, summary, work_experience,
education, skills, each block's component equal to its data_key. -/
theorem layoutPlan_default_on_failure (resume_data : List (String × JValue))
    (template_style : String) :
    generate_layout_plan resume_data template_style (Except.error ()) =
      JValue.obj [("pages", JValue.arr [
        JValue.obj [("page", JValue.num 1), ("content", JValue.arr [
          JValue.obj [("component", JValue.str "contact_info"),
            ("data_key", JValue.str "contact_info")],
          JValue.obj [("component", JValue.str "summary"),
            ("data_key", JValue.str "summary")],
          JValue.obj [("component", JValue.str "work_experience"),
            ("data_key", JValue.str "work_experience")],
          JValue.obj [("component", JValue.str "education"),
            ("data_key", JValue.str "education")],
          JValue.obj [("component", JValue.str "skills"),
            ("data_key", JValue.str "skills")]])]])] := rfl

/-- Claim C3: with force_regenerate false and a cached layout-plan file
present (its body an actual plan, so not the JSON null that Python's loader
would read back as None), generate_html uses exactly the cached plan, leaves
the cache file unchanged, and never invokes generate_layout_plan. -/
theorem generate_html_cache_hit (d : List (String × JValue)) (t : String)
    (p : JValue) (resp : Except Unit JValue) (hp : p ≠ JValue.null) :
    (generate_html d t false (some p) resp).plan = p ∧
    (generate_html d t false (some p) resp).calledInference = false ∧
    (generate_html d t false (some p) resp).cacheAfter = some p := by
  cases p <;> first
    | exact absurd rfl hp
    | exact ⟨rfl, rfl, rfl⟩

/-- Concrete instance of the cache-hit theorem. -/
theorem generate_html_cache_hit_witness :
    (generate_html [] "template1.html" false (some (JValue.obj [])) (Except.error ())).plan
        = JValue.obj [] ∧
    (generate_html [] "template1.html" false (some (JValue.obj []))
        (Except.error ())).calledInference = false ∧
    (generate_html [] "template1.html" false (some (JValue.obj []))
        (Except.error ())).cacheAfter = some (JValue.obj []) :=
  generate_html_cache_hit [] "template1.html" (JValue.obj []) (Except.error ())
    (fun h => JValue.noConfusion h)

/-- Claim C4: after a cache-miss invocation (no cached plan, or
force_regenerate true) whose inference response is either a failure or a
schema-conforming object, the plan returned by generate_layout_plan is
persisted to the cache, and a subsequent invocation with force_regenerate
false returns that same plan from cache without calling the service; when
the service was unreachable the persisted and returned plan is the fixed
default. -/
theorem generate_html_cache_roundtrip (d d2 : List (String × JValue))
    (t t2 : String) (force : Bool) (cacheFile : Option JValue)
    (resp resp2 : Except Unit JValue)
    (hmiss : cacheFile = none ∨ force = true)
    (hconf : ∀ v, resp = Except.ok v → isObjB v = true) :
    (generate_html d t force cacheFile resp).cacheAfter =
      some (generate_html d t force cacheFile resp).plan ∧
    (generate_html d t force cacheFile resp).calledInference = true ∧
    (generate_html d2 t2 false (generate_html d t force cacheFile resp).cacheAfter
      resp2).plan = (generate_html d t force cacheFile resp).plan ∧
    (generate_html d2 t2 false (generate_html d t force cacheFile resp).cacheAfter
      resp2).calledInference = false ∧
    (resp = Except.error () → (generate_html d t force cacheFile resp).plan
      = defaultLayoutPlan) := by
  have h1 : generate_html d t force cacheFile resp =
      ⟨generate_layout_plan d t resp, some (generate_layout_plan d t resp), true⟩ := by
    rcases hmiss with h | h
    · subst h; cases force <;> rfl
    · subst h; rfl
  have h2 : isObjB (generate_layout_plan d t resp) = true := by
    cases resp with
    | ok v => exact hconf v rfl
    | error e => rfl
  rw [h1]
  refine ⟨rfl, rfl, ?_, ?_, ?_⟩
  · cases hgen : generate_layout_plan d t resp <;> rw [hgen] at h2 <;>
      simp [isObjB] at h2 <;> rfl
  · cases hgen : generate_layout_plan d t resp <;> rw [hgen] at h2 <;>
      simp [isObjB] at h2 <;> rfl
  · intro he; subst he; rfl

/-- Concrete instance of the cache round-trip theorem: unreachable service,
empty cache, so the default plan is persisted and then served from cache. -/
theorem generate_html_cache_roundtrip_witness :
    (generate_html [] "m" false none (Except.error ())).plan = defaultLayoutPlan ∧
    (generate_html [] "m" false
      (generate_html [] "m" false none (Except.error ())).cacheAfter
      (Except.error ())).plan = defaultLayoutPlan ∧
    (generate_html [] "m" false
      (generate_html [] "m" false none (Except.error ())).cacheAfter
      (Except.error ())).calledInference = false := by
  have h := generate_html_cache_roundtrip [] [] "m" "m" false none
    (Except.error ()) (Except.error ()) (Or.inl rfl) (fun v hv => nomatch hv)
  obtain ⟨h1, h2, h3, h4, h5⟩ := h
  have hd := h5 rfl
  exact ⟨hd, by rw [h3, hd], h4⟩

/-- Claim C5: wipe_if_not_in_source returns either its candidate unchanged or
none, never a transformed value; none and the empty candidate come back
unchanged, and a non-empty candidate survives exactly when its lowercased
letters-only form is a substring of the source's. -/
theorem wipe_characterization (value : Option String) (source : String) :
    (wipe_if_not_in_source value source = value ∨
      wipe_if_not_in_source value source = none) ∧
    wipe_if_not_in_source none source = none ∧
    wipe_if_not_in_source (some "") source = some "" ∧
    (∀ v : String, v ≠ "" →
      wipe_if_not_in_source (some v) source =
        (if listContains (lettersOnly v) (lettersOnly source) then some v else none)) := by
  refine ⟨?_, rfl, by simp [wipe_if_not_in_source], ?_⟩
  · cases value with
    | none => exact Or.inl rfl
    | some v =>
      by_cases hv : v = ""
      · subst hv; exact Or.inl (by simp [wipe_if_not_in_source])
      · simp only [wipe_if_not_in_source, if_neg hv]
        split <;> simp
  · intro v hv
    simp [wipe_if_not_in_source, hv]

/-- Concrete instances of the wipe characterization: a candidate present in
the source survives, an absent one is wiped to none. -/
theorem wipe_characterization_witness :
    wipe_if_not_in_source (some "Ada B.") "resume of ADA b" = some "Ada B." ∧
    wipe_if_not_in_source (some "Zoe") "resume of ADA b" = none := by
  constructor
  · have h := (wipe_characterization (some "Ada B.") "resume of ADA b").2.2.2
      "Ada B." (by decide)
    rw [h]; decide
  · have h := (wipe_characterization (some "Zoe") "resume of ADA b").2.2.2
      "Zoe" (by decide)
    rw [h]; decide

/-- Claim C6: when the segmentation call fails in any way, segment_resume_text
returns the mapping giving every one of the ten schema section fields the
empty string, and the failure does not propagate (the function is total and
returns this fallback value). -/
theorem segmentation_failure_fallback (text : String) :
    segment_resume_text text (Except.error ()) =
      [("candidate_name_text", ""), ("contact_info_section", ""),
       ("summary_section", ""), ("work_experience_section", ""),
       ("education_section", ""), ("skills_section", ""),
       ("certifications_section", ""), ("projects_section", ""),
       ("languages_section", ""), ("awards_section", "")] ∧
    (∀ kv ∈ segment_resume_text text (Except.error ()), kv.2 = "") ∧
    (∀ k ∈ segmentationKeys, segGet (segment_resume_text text (Except.error ())) k = "") := by
  have h0 : segment_resume_text text (Except.error ()) =
      [("candidate_name_text", ""), ("contact_info_section", ""),
       ("summary_section", ""), ("work_experience_section", ""),
       ("education_section", ""), ("skills_section", ""),
       ("certifications_section", ""), ("projects_section", ""),
       ("languages_section", ""), ("awards_section", "")] := rfl
  refine ⟨h0, ?_, ?_⟩ <;> rw [h0] <;> decide

/-- Claim C7: a section span that is empty or all whitespace makes each
extractor return its zero value (empty list for work experience, the four
empty skill lists, the empty object for contact info, the empty string for
the summary) with the inference-service flag false: no call is issued. -/
theorem extractors_short_circuit (chunk : String)
    (h : ∀ c ∈ chunk.data, isPyWS c = true)
    (rW rS rC : Except Unit JValue) (rSum : Except Unit String) :
    parse_work_experience_chunk chunk rW = (JValue.arr [], false) ∧
    parse_skills_chunk chunk rS = (skillsZero, false) ∧
    parse_contact_info_chunk chunk rC = (JValue.obj [], false) ∧
    parse_summary_chunk chunk rSum = ("", false) := by
  have hs : pyStripStr chunk = "" := by
    show (⟨pyStrip chunk.data⟩ : String) = ""
    rw [pyStrip_eq_nil_of_all_ws h]
  refine ⟨?_, ?_, ?_, ?_⟩ <;>
    simp [parse_work_experience_chunk, parse_skills_chunk,
      parse_contact_info_chunk, parse_summary_chunk, hs]

/-- Concrete instance of the short-circuit theorem on a whitespace-only
span. -/
theorem extractors_short_circuit_witness :
    parse_work_experience_chunk " \n\t " (Except.error ()) = (JValue.arr [], false) ∧
    parse_skills_chunk " \n\t " (Except.error ()) = (skillsZero, false) ∧
    parse_contact_info_chunk " \n\t " (Except.error ()) = (JValue.obj [], false) ∧
    parse_summary_chunk " \n\t " (Except.error ()) = ("", false) :=
  extractors_short_circuit " \n\t " (by decide) (Except.error ()) (Except.error ())
    (Except.error ()) (Except.error ())

/-- Claim C10: a non-empty candidate with no letters at all passes the
anti-hallucination check unchanged for every source, because its letters-only
form is empty, and the empty string is a substring of every source. -/
theorem wipe_accepts_letterless (v source : String) (hne : v ≠ "")
    (hletters : ∀ c ∈ v.data, c.isAlpha = false) :
    wipe_if_not_in_source (some v) source = some v := by
  have hlo : lettersOnly v = [] := by
    simp only [lettersOnly, List.filter_eq_nil_iff]
    intro d hd
    rcases List.mem_map.mp hd with ⟨c, hc, rfl⟩
    have ha := hletters c hc
    simp only [Char.isAlpha, Char.isUpper, Char.isLower, Bool.or_eq_false_iff,
      Bool.and_eq_false_iff] at ha
    simp only [Char.toLower]
    split
    · next hrange =>
      intro hcon
      simp only [Bool.and_eq_true, decide_eq_true_eq] at hcon
      have h1 : ('a' : Char) ≤ Char.ofNat (c.toNat + 32) := hcon.1
      have h2 : Char.ofNat (c.toNat + 32) ≤ 'z' := hcon.2
      have hv1 : 65 ≤ c.toNat := hrange.1
      have hv2 : c.toNat ≤ 90 := hrange.2
      rcases ha.1 with h65 | h90
      · exact absurd (by exact_mod_cast hv1) (by simpa using h65)
      · exact absurd (by exact_mod_cast hv2) (by simpa using h90)
    · next =>
      intro hcon
      simp only [Bool.and_eq_true, decide_eq_true_eq] at hcon
      have h1 : 97 ≤ c.toNat := hcon.1
      have h2 : c.toNat ≤ 122 := hcon.2
      rcases ha.2 with h97 | h122
      · exact absurd (by exact_mod_cast h1) (by simpa using h97)
      · exact absurd (by exact_mod_cast h2) (by simpa using h122)
  simp [wipe_if_not_in_source, hne, hlo, listContains_nil]

/-- Concrete instance: a candidate of digits and punctuation survives against
an unrelated source. -/
theorem wipe_accepts_letterless_witness :
    wipe_if_not_in_source (some "123-456!") "completely unrelated" = some "123-456!" :=
  wipe_accepts_letterless "123-456!" "completely unrelated" (by decide) (by decide)

/-- Single-character replace distributes over append. -/
theorem replaceChar_append (old : Char) (new : List Char) (a b : List Char) :
    replaceChar old new (a ++ b) = replaceChar old new a ++ replaceChar old new b := by
  induction a with
  | nil => rfl
  | cons c rest ih => simp [replaceChar, ih, List.append_assoc]

/-- One step of the three sequential bullet replaces equals the one-pass
amended character expansion. -/
theorem replBullets_cons (c : Char) (rest : List Char) :
    replBullets (c :: rest) = bulletMapAmended c ++ replBullets rest := by
  show replaceChar '–' ['-'] (replaceChar '●' ['-', ' ']
      ((if c = '•' then ['-', ' '] else [c]) ++ replaceChar '•' ['-', ' '] rest)) = _
  rw [replaceChar_append, replaceChar_append]
  show _ ++ replBullets rest = _
  congr 1
  by_cases h1 : c = '•'
  · subst h1; rfl
  by_cases h2 : c = '●'
  · subst h2; rfl
  by_cases h3 : c = '–'
  · subst h3; rfl
  · simp [replaceChar, bulletMapAmended, h1, h2, h3]

/-- Character expansion unfolds on cons. -/
theorem expandBy_cons (f : Char → List Char) (c : Char) (rest : List Char) :
    expandBy f (c :: rest) = f c ++ expandBy f rest := by
  simp [expandBy]

/-- The three sequential bullet replaces of parser.py line 26 equal the
one-pass amended character expansion. -/
theorem replBullets_eq_expand (cs : List Char) :
    replBullets cs = expandBy bulletMapAmended cs := by
  induction cs with
  | nil => rfl
  | cons c rest ih => rw [replBullets_cons, expandBy_cons, ih]

/-- One step of the four sequential quote replaces equals the single quote
map. -/
theorem replQuotes_cons (c : Char) (rest : List Char) :
    replQuotes (c :: rest) = quoteMap c :: replQuotes rest := by
  show replaceChar '”' ['\x22'] (replaceChar '“' ['\x22'] (replaceChar '’' ['\x27']
      ((if c = '‘' then ['\x27'] else [c]) ++ replaceChar '‘' ['\x27'] rest))) = _
  rw [replaceChar_append, replaceChar_append, replaceChar_append]
  show _ ++ replQuotes rest = _
  have : replaceChar '”' ['\x22'] (replaceChar '“' ['\x22'] (replaceChar '’' ['\x27']
      (if c = '‘' then ['\x27'] else [c]))) = [quoteMap c] := by
    by_cases h1 : c = '‘'
    · subst h1; rfl
    by_cases h2 : c = '’'
    · subst h2; rfl
    by_cases h3 : c = '“'
    · subst h3; rfl
    by_cases h4 : c = '”'
    · subst h4; rfl
    · simp [replaceChar, quoteMap, h1, h2, h3, h4]
  rw [this]
  rfl

/-- The four sequential quote replaces of parser.py line 29 equal mapping the
single quote map. -/
theorem replQuotes_eq_map (cs : List Char) :
    replQuotes cs = cs.map quoteMap := by
  induction cs with
  | nil => rfl
  | cons c rest ih => rw [replQuotes_cons, List.map_cons, ih]

/-- A run that starts with a newline ends at a newline at once. -/
theorem runEndsAtNl_nl (rest : List Char) : runEndsAtNl ('\n' :: rest) = true := rfl

/-- Skipping a leading space or tab does not change where the run ends. -/
theorem runEndsAtNl_ht (c : Char) (rest : List Char) (h : isHT c = true) :
    runEndsAtNl (c :: rest) = runEndsAtNl rest := by
  simp [runEndsAtNl, List.dropWhile_cons, h]

/-- A leading character that is neither horizontal whitespace nor a newline
means the run does not end at a newline. -/
theorem runEndsAtNl_other (c : Char) (rest : List Char) (hht : isHT c = false)
    (hnl : c ≠ '\n') : runEndsAtNl (c :: rest) = false := by
  unfold runEndsAtNl
  rw [List.dropWhile_cons, hht]
  simp [isNl, hnl]

/-- The accumulator form of the line-27 substitution in terms of the pointwise
specification form: the pending whitespace run is dropped exactly when the
run continues to a newline. -/
theorem subWsNlAux_spec (cs : List Char) : ∀ pend : List Char,
    subWsNlAux pend cs = (if runEndsAtNl cs then [] else pend.reverse) ++ specT2 cs := by
  induction cs with
  | nil =>
    intro pend
    simp [subWsNlAux, runEndsAtNl, specT2, List.dropWhile]
  | cons c rest ih =>
    intro pend
    have hunf : subWsNlAux pend (c :: rest) =
        (if c = '\n' then '\n' :: subWsNlAux [] rest
         else if isHT c then subWsNlAux (c :: pend) rest
         else pend.reverse ++ c :: subWsNlAux [] rest) := rfl
    by_cases hnl : c = '\n'
    · subst hnl
      rw [hunf, if_pos rfl, ih [], runEndsAtNl_nl]
      have h2 : specT2 ('\n' :: rest) = '\n' :: specT2 rest := by
        simp [specT2, isHT]
      rw [h2]
      simp [ite_self]
    · by_cases hht : isHT c = true
      · rw [hunf, if_neg hnl, if_pos hht, ih (c :: pend), runEndsAtNl_ht c rest hht]
        have h2 : specT2 (c :: rest) =
            (if runEndsAtNl rest then specT2 rest else c :: specT2 rest) := by
          simp only [specT2, hht, Bool.true_and]
        rw [h2]
        by_cases hr : runEndsAtNl rest = true
        · simp [hr]
        · simp only [Bool.not_eq_true] at hr
          simp [hr]
      · simp only [Bool.not_eq_true] at hht
        rw [hunf, if_neg hnl, hht]
        simp only [Bool.false_eq_true, if_false]
        rw [ih [], runEndsAtNl_other c rest hht hnl]
        have h2 : specT2 (c :: rest) = c :: specT2 rest := by
          simp [specT2, hht]
        rw [h2]
        simp [ite_self]

/-- parser.py line 27 equals the pointwise specification of
trailing-whitespace collapsing. -/
theorem subWsNl_eq_specT2 (cs : List Char) : subWsNl cs = specT2 cs := by
  have h := subWsNlAux_spec cs []
  simpa [subWsNl, ite_self] using h


/-- A collapsed-run length of at least two is exactly two. -/
theorem nlRun_of_ge_two {m : Nat} (h : 2 ≤ m) : nlRun m = 2 := by
  unfold nlRun; split <;> omega

/-- Short runs are left alone. -/
theorem nlRun_of_le_two {m : Nat} (h : m ≤ 2) : nlRun m = m := by
  unfold nlRun; split <;> omega

/-- The newline-only take of a string is a replicate of newlines. -/
theorem takeWhile_isNl_replicate (r : List Char) :
    r.takeWhile isNl = List.replicate (r.takeWhile isNl).length '\n' := by
  apply List.eq_replicate_of_mem
  intro b hb
  have h := List.mem_takeWhile_imp hb
  simpa [isNl] using h

/-- Without two leading newlines, the newline-only take has length at most
one. -/
theorem twoNl_false_lead {r : List Char} (h : twoNl r = false) :
    (r.takeWhile isNl).length ≤ 1 := by
  match r with
  | [] => simp
  | [c] => simpa using (List.takeWhile_sublist (l := [c]) isNl).length_le
  | c :: d :: t =>
    rw [show twoNl (c :: d :: t) = (isNl c && isNl d) from rfl] at h
    by_cases hc : isNl c = true
    · have hd : isNl d = false := by
        cases hisd : isNl d
        · rfl
        · rw [hc, hisd] at h; exact Bool.noConfusion h
      simp [List.takeWhile_cons, hc, hd]
    · simp only [Bool.not_eq_true] at hc
      simp [List.takeWhile_cons, hc]

/-- With two leading newlines, the newline-only take has length at least
two. -/
theorem twoNl_true_lead {r : List Char} (h : twoNl r = true) :
    2 ≤ (r.takeWhile isNl).length := by
  match r with
  | [] => exact Bool.noConfusion h
  | [c] => exact Bool.noConfusion h
  | c :: d :: t =>
    rw [show twoNl (c :: d :: t) = (isNl c && isNl d) from rfl] at h
    rw [Bool.and_eq_true] at h
    simp [List.takeWhile_cons, h.1, h.2]

/-- The right-fold collapse never leaves more than two leading newlines. -/
theorem specT3_lead_le (cs : List Char) :
    ((specT3 cs).takeWhile isNl).length ≤ 2 := by
  induction cs with
  | nil => simp [specT3]
  | cons c rest ih =>
    have hunf : specT3 (c :: rest) =
        (if c = '\n' && twoNl (specT3 rest) then specT3 rest
         else c :: specT3 rest) := rfl
    rw [hunf]
    by_cases hcond : (c = '\n' && twoNl (specT3 rest)) = true
    · rw [if_pos hcond]; exact ih
    · rw [if_neg hcond]
      by_cases hc : c = '\n'
      · have htwo : twoNl (specT3 rest) = false := by
          cases htn : twoNl (specT3 rest)
          · rfl
          · exact absurd (by rw [htn, hc]; simp) hcond
        have hlead := twoNl_false_lead htwo
        have hcnl : isNl c = true := by simp [isNl, hc]
        simp only [List.takeWhile_cons, hcnl, if_true, List.length_cons]
        omega
      · have hcnl : isNl c = false := by simp [isNl, hc]
        simp [List.takeWhile_cons, hcnl]

/-- The accumulating form of the line-28 substitution in terms of the
right-fold specification form: the pending newline count merges with the
leading newlines of the collapsed remainder. -/
theorem subNnnAux_spec (cs : List Char) : ∀ n : Nat,
    subNnnAux n cs =
      List.replicate (nlRun (n + ((specT3 cs).takeWhile isNl).length)) '\n' ++
        (specT3 cs).dropWhile isNl := by
  induction cs with
  | nil =>
    intro n
    simp [subNnnAux, specT3]
  | cons c rest ih =>
    intro n
    have hunf : subNnnAux n (c :: rest) =
        (if c = '\n' then subNnnAux (n + 1) rest
         else List.replicate (nlRun n) '\n' ++ c :: subNnnAux 0 rest) := rfl
    have hunf3 : specT3 (c :: rest) =
        (if c = '\n' && twoNl (specT3 rest) then specT3 rest
         else c :: specT3 rest) := rfl
    by_cases hc : c = '\n'
    · subst hc
      rw [hunf, if_pos rfl, ih (n + 1), hunf3]
      by_cases htwo : twoNl (specT3 rest) = true
      · rw [if_pos (by rw [htwo]; simp)]
        have h2 : ((specT3 rest).takeWhile isNl).length = 2 :=
          le_antisymm (specT3_lead_le rest) (twoNl_true_lead htwo)
        rw [h2, nlRun_of_ge_two (by omega), nlRun_of_ge_two (by omega)]
      · simp only [Bool.not_eq_true] at htwo
        rw [if_neg (by rw [htwo]; simp)]
        have hnlc : isNl '\n' = true := rfl
        simp only [List.takeWhile_cons, hnlc, if_true, List.dropWhile_cons, hnlc,
          List.length_cons]
        have harith : n + 1 + ((specT3 rest).takeWhile isNl).length =
            n + (((specT3 rest).takeWhile isNl).length + 1) := by omega
        rw [harith]
    · rw [hunf, if_neg hc, ih 0, hunf3]
      rw [if_neg (by simp [hc])]
      have hL := specT3_lead_le rest
      rw [Nat.zero_add, nlRun_of_le_two hL, ← takeWhile_isNl_replicate]
      rw [List.takeWhile_append_dropWhile]
      have hcnl : isNl c = false := by simp [isNl, hc]
      simp [List.takeWhile_cons, List.dropWhile_cons, hcnl, nlRun]

/-- parser.py line 28 equals the right-fold specification of newline-run
collapsing. -/
theorem subNnn_eq_specT3 (cs : List Char) : subNnn cs = specT3 cs := by
  show subNnnAux 0 cs = specT3 cs
  rw [subNnnAux_spec cs 0, Nat.zero_add, nlRun_of_le_two (specT3_lead_le cs),
    ← takeWhile_isNl_replicate, List.takeWhile_append_dropWhile]

/-- The source pipeline in its specification form: one-pass bullet expansion,
pointwise whitespace collapsing, right-fold newline collapsing, quote map,
strip. -/
theorem precleanL_pipeline (cs : List Char) :
    precleanL cs =
      pyStrip ((specT3 (specT2 (expandBy bulletMapAmended cs))).map quoteMap) := by
  unfold precleanL
  rw [replBullets_eq_expand, subWsNl_eq_specT2, subNnn_eq_specT3, replQuotes_eq_map]

/-- Claim C8 counterexample: on the input a en-dash b, preclean produces a
plain hyphen with no following space, while the claim's transformation list
(en-dash to hyphen-space) would produce a hyphen and a space; the two
pipelines differ at this input. -/
theorem preclean_endash_divergence :
    preclean "a–b" = "a-b" ∧ precleanClaimC8 "a–b" = "a- b" ∧
    preclean "a–b" ≠ precleanClaimC8 "a–b" := by
  refine ⟨by decide, by decide, by decide⟩

/-- Claim C8 as amended: preclean applies exactly, in order: bullet-glyph
replacement (the glyphs to a hyphen-space marker, the en-dash to a plain
hyphen), collapsing of trailing horizontal whitespace before newlines,
collapsing of three-or-more newline runs to exactly two, straightening of
curly quotes and apostrophes, and trimming of leading and trailing
whitespace. -/
theorem preclean_eq_amendedC8 (s : String) : preclean s = precleanAmendedC8 s := by
  show (⟨precleanL s.data⟩ : String) = _
  rw [precleanL_pipeline]
  rfl

/-- The whitespace-newline freedom of a string passes to its tail. -/
theorem wsNlFree_tail {c : Char} {l : List Char} (h : wsNlFree (c :: l) = true) :
    wsNlFree l = true := by
  cases l with
  | nil => rfl
  | cons d t =>
    rw [show wsNlFree (c :: d :: t) = (!(isHT c && isNl d) && wsNlFree (d :: t))
      from rfl] at h
    exact (Bool.and_eq_true_iff.mp h).2

/-- A two-element head of a whitespace-newline-free string is not a space or
tab followed by a newline. -/
theorem wsNlFree_two {c d : Char} {t : List Char}
    (h : wsNlFree (c :: d :: t) = true) : (isHT c && isNl d) = false := by
  rw [show wsNlFree (c :: d :: t) = (!(isHT c && isNl d) && wsNlFree (d :: t))
    from rfl] at h
  have h1 := (Bool.and_eq_true_iff.mp h).1
  cases hx : (isHT c && isNl d)
  · rfl
  · rw [hx] at h1; exact Bool.noConfusion h1

/-- Prepending a non-horizontal-whitespace character preserves freedom. -/
theorem wsNlFree_cons_nonHT {c : Char} {l : List Char} (hc : isHT c = false)
    (h : wsNlFree l = true) : wsNlFree (c :: l) = true := by
  cases l with
  | nil => rfl
  | cons d t =>
    rw [show wsNlFree (c :: d :: t) = (!(isHT c && isNl d) && wsNlFree (d :: t))
      from rfl]
    rw [hc]
    simpa using h

/-- Prepending anything before a string whose head is not a newline preserves
freedom. -/
theorem wsNlFree_cons_headNotNl {c : Char} {l : List Char}
    (hhead : ∀ d, l.head? = some d → isNl d = false)
    (h : wsNlFree l = true) : wsNlFree (c :: l) = true := by
  cases l with
  | nil => rfl
  | cons d t =>
    rw [show wsNlFree (c :: d :: t) = (!(isHT c && isNl d) && wsNlFree (d :: t))
      from rfl]
    rw [hhead d rfl]
    simpa using h

/-- Triple-newline freedom passes to the tail. -/
theorem noTripleNl_tail {c : Char} {l : List Char}
    (h : noTripleNl (c :: l) = true) : noTripleNl l = true := by
  match l with
  | [] => rfl
  | [d] => rfl
  | d :: e :: t =>
    rw [show noTripleNl (c :: d :: e :: t) =
      (!(isNl c && isNl d && isNl e) && noTripleNl (d :: e :: t)) from rfl] at h
    exact (Bool.and_eq_true_iff.mp h).2

/-- A newline head of a triple-newline-free string is not followed by two
more newlines. -/
theorem noTripleNl_two {c : Char} {l : List Char}
    (h : noTripleNl (c :: l) = true) (hc : isNl c = true) : twoNl l = false := by
  match l with
  | [] => rfl
  | [d] => rfl
  | d :: e :: t =>
    rw [show noTripleNl (c :: d :: e :: t) =
      (!(isNl c && isNl d && isNl e) && noTripleNl (d :: e :: t)) from rfl] at h
    have h1 := (Bool.and_eq_true_iff.mp h).1
    rw [show twoNl (d :: e :: t) = (isNl d && isNl e) from rfl]
    cases hx : (isNl d && isNl e)
    · rfl
    · rw [hc] at h1
      simp only [Bool.true_and] at h1
      rw [hx] at h1
      simp at h1

/-- Prepending a character that does not complete a newline triple preserves
freedom. -/
theorem noTripleNl_cons {c : Char} {l : List Char}
    (hsafe : isNl c = true → twoNl l = false)
    (h : noTripleNl l = true) : noTripleNl (c :: l) = true := by
  match l with
  | [] => rfl
  | [d] => rfl
  | d :: e :: t =>
    rw [show noTripleNl (c :: d :: e :: t) =
      (!(isNl c && isNl d && isNl e) && noTripleNl (d :: e :: t)) from rfl]
    rw [h, Bool.and_true]
    cases hc : isNl c
    · rfl
    · have := hsafe hc
      rw [show twoNl (d :: e :: t) = (isNl d && isNl e) from rfl] at this
      simp [this]

/-- The pointwise whitespace collapse only deletes characters. -/
theorem mem_specT2 {c : Char} {cs : List Char} (h : c ∈ specT2 cs) : c ∈ cs := by
  induction cs with
  | nil => simpa [specT2] using h
  | cons d rest ih =>
    rw [show specT2 (d :: rest) =
      (if isHT d && runEndsAtNl rest then specT2 rest else d :: specT2 rest)
      from rfl] at h
    by_cases hc : (isHT d && runEndsAtNl rest) = true
    · rw [if_pos hc] at h
      exact List.mem_cons_of_mem d (ih h)
    · rw [if_neg hc] at h
      rcases List.mem_cons.mp h with h | h
      · exact h ▸ List.mem_cons_self d rest
      · exact List.mem_cons_of_mem d (ih h)

/-- The right-fold newline collapse only deletes characters. -/
theorem mem_specT3 {c : Char} {cs : List Char} (h : c ∈ specT3 cs) : c ∈ cs := by
  induction cs with
  | nil => simpa [specT3] using h
  | cons d rest ih =>
    rw [show specT3 (d :: rest) =
      (if d = '\n' && twoNl (specT3 rest) then specT3 rest else d :: specT3 rest)
      from rfl] at h
    by_cases hc : (d = '\n' && twoNl (specT3 rest)) = true
    · rw [if_pos hc] at h
      exact List.mem_cons_of_mem d (ih h)
    · rw [if_neg hc] at h
      rcases List.mem_cons.mp h with h | h
      · exact h ▸ List.mem_cons_self d rest
      · exact List.mem_cons_of_mem d (ih h)

/-- Stripping only deletes characters. -/
theorem mem_pyStrip {c : Char} {cs : List Char} (h : c ∈ pyStrip cs) : c ∈ cs := by
  have h1 : c ∈ (cs.dropWhile isPyWS).reverse.dropWhile isPyWS := by
    simpa [pyStrip] using h
  have h2 := (List.dropWhile_sublist isPyWS).subset h1
  have h3 : c ∈ cs.dropWhile isPyWS := by simpa using h2
  exact (List.dropWhile_sublist isPyWS).subset h3

/-- The quote map fixes newline status. -/
theorem quoteMap_isNl (c : Char) : isNl (quoteMap c) = isNl c := by
  unfold quoteMap
  by_cases h1 : (c = '‘' || c = '’') = true
  · rw [if_pos h1]
    rcases Bool.or_eq_true_iff.mp h1 with h | h <;>
      rw [decide_eq_true_eq.mp h] <;> rfl
  · rw [if_neg h1]
    by_cases h2 : (c = '“' || c = '”') = true
    · rw [if_pos h2]
      rcases Bool.or_eq_true_iff.mp h2 with h | h <;>
        rw [decide_eq_true_eq.mp h] <;> rfl
    · rw [if_neg h2]

/-- The quote map fixes horizontal-whitespace status. -/
theorem quoteMap_isHT (c : Char) : isHT (quoteMap c) = isHT c := by
  unfold quoteMap
  by_cases h1 : (c = '‘' || c = '’') = true
  · rw [if_pos h1]
    rcases Bool.or_eq_true_iff.mp h1 with h | h <;>
      rw [decide_eq_true_eq.mp h] <;> rfl
  · rw [if_neg h1]
    by_cases h2 : (c = '“' || c = '”') = true
    · rw [if_pos h2]
      rcases Bool.or_eq_true_iff.mp h2 with h | h <;>
        rw [decide_eq_true_eq.mp h] <;> rfl
    · rw [if_neg h2]

/-- The quote map never produces a curly character. -/
theorem quoteMap_not_curly (c : Char) :
    (!(quoteMap c = '‘' || quoteMap c = '’' || quoteMap c = '“' || quoteMap c = '”'))
      = true := by
  unfold quoteMap
  by_cases h1 : (c = '‘' || c = '’') = true
  · rw [if_pos h1]; rfl
  · rw [if_neg h1]
    by_cases h2 : (c = '“' || c = '”') = true
    · rw [if_pos h2]; rfl
    · rw [if_neg h2]
      simp only [Bool.or_eq_true, decide_eq_true_eq] at h1 h2
      push_neg at h1 h2
      simp [h1.1, h1.2, h2.1, h2.2]

/-- The quote map fixes every non-curly character. -/
theorem quoteMap_id_of_not_curly {c : Char}
    (h : (!(c = '‘' || c = '’' || c = '“' || c = '”')) = true) : quoteMap c = c := by
  simp only [Bool.not_eq_true', Bool.or_eq_false_iff, decide_eq_false_iff_not] at h
  unfold quoteMap
  rw [if_neg, if_neg]
  · simp [h.1.1.2, h.1.2, h.2]
  · simp [h.1.1.1, h.1.1.2, h.1.2, h.2]

/-- When the leading run does not end at a newline, the collapsed output does
not start with a newline. -/
theorem specT2_head_not_nl {cs : List Char} (h : runEndsAtNl cs = false) :
    ∀ d, (specT2 cs).head? = some d → isNl d = false := by
  induction cs with
  | nil => intro d hd; simp [specT2] at hd
  | cons c rest ih =>
    intro d hd
    rw [show specT2 (c :: rest) =
      (if isHT c && runEndsAtNl rest then specT2 rest else c :: specT2 rest)
      from rfl] at hd
    by_cases hc : (isHT c && runEndsAtNl rest) = true
    · rw [if_pos hc] at hd
      have hht := (Bool.and_eq_true_iff.mp hc).1
      rw [runEndsAtNl_ht c rest hht] at h
      exact ih h d hd
    · rw [if_neg hc] at hd
      simp only [List.head?_cons, Option.some.injEq] at hd
      rw [← hd]
      cases hnl : isNl c
      · rfl
      · have hcn : c = '\n' := by simpa [isNl] using hnl
        rw [hcn, runEndsAtNl_nl] at h
        exact Bool.noConfusion h

/-- The pointwise whitespace collapse establishes whitespace-newline
freedom. -/
theorem specT2_wsNlFree (cs : List Char) : wsNlFree (specT2 cs) = true := by
  induction cs with
  | nil => rfl
  | cons c rest ih =>
    rw [show specT2 (c :: rest) =
      (if isHT c && runEndsAtNl rest then specT2 rest else c :: specT2 rest)
      from rfl]
    by_cases hc : (isHT c && runEndsAtNl rest) = true
    · rw [if_pos hc]; exact ih
    · rw [if_neg hc]
      by_cases hht : isHT c = true
      · have hr : runEndsAtNl rest = false := by
          cases hx : runEndsAtNl rest
          · rfl
          · exact absurd (by rw [hht, hx]; rfl) hc
        exact wsNlFree_cons_headNotNl (specT2_head_not_nl hr) ih
      · simp only [Bool.not_eq_true] at hht
        exact wsNlFree_cons_nonHT hht ih

/-- A newline head of the collapsed output comes from a newline head of the
input. -/
theorem specT3_head_nl {cs : List Char} {d : Char}
    (h : (specT3 cs).head? = some d) (hd : isNl d = true) :
    ∃ e, cs.head? = some e ∧ isNl e = true := by
  cases cs with
  | nil => simp [specT3] at h
  | cons c rest =>
    rw [show specT3 (c :: rest) =
      (if c = '\n' && twoNl (specT3 rest) then specT3 rest else c :: specT3 rest)
      from rfl] at h
    by_cases hc : (c = '\n' && twoNl (specT3 rest)) = true
    · refine ⟨c, rfl, ?_⟩
      have := (Bool.and_eq_true_iff.mp hc).1
      simpa [isNl] using this
    · rw [if_neg hc] at h
      simp only [List.head?_cons, Option.some.injEq] at h
      exact ⟨c, rfl, h ▸ hd⟩

/-- The right-fold newline collapse preserves whitespace-newline freedom. -/
theorem wsNlFree_specT3 {cs : List Char} (h : wsNlFree cs = true) :
    wsNlFree (specT3 cs) = true := by
  induction cs with
  | nil => rfl
  | cons c rest ih =>
    have ht := wsNlFree_tail h
    rw [show specT3 (c :: rest) =
      (if c = '\n' && twoNl (specT3 rest) then specT3 rest else c :: specT3 rest)
      from rfl]
    by_cases hc : (c = '\n' && twoNl (specT3 rest)) = true
    · rw [if_pos hc]; exact ih ht
    · rw [if_neg hc]
      by_cases hht : isHT c = true
      · refine wsNlFree_cons_headNotNl ?_ (ih ht)
        intro d hd
        cases hnl : isNl d
        · rfl
        · obtain ⟨e, he, hne⟩ := specT3_head_nl hd hnl
          cases rest with
          | nil => simp at he
          | cons e' t =>
            simp only [List.head?_cons, Option.some.injEq] at he
            subst he
            have := wsNlFree_two h
            rw [hht, hne] at this
            exact Bool.noConfusion this
      · simp only [Bool.not_eq_true] at hht
        exact wsNlFree_cons_nonHT hht (ih ht)

/-- The right-fold newline collapse establishes triple-newline freedom. -/
theorem specT3_noTriple (cs : List Char) : noTripleNl (specT3 cs) = true := by
  induction cs with
  | nil => rfl
  | cons c rest ih =>
    rw [show specT3 (c :: rest) =
      (if c = '\n' && twoNl (specT3 rest) then specT3 rest else c :: specT3 rest)
      from rfl]
    by_cases hc : (c = '\n' && twoNl (specT3 rest)) = true
    · rw [if_pos hc]; exact ih
    · rw [if_neg hc]
      refine noTripleNl_cons ?_ ih
      intro hnl
      cases hx : twoNl (specT3 rest)
      · rfl
      · refine absurd ?_ hc
        rw [hx, Bool.and_true]
        simpa [isNl] using hnl

/-- The quote map preserves whitespace-newline freedom. -/
theorem wsNlFree_map_quoteMap {l : List Char} (h : wsNlFree l = true) :
    wsNlFree (l.map quoteMap) = true := by
  induction l with
  | nil => rfl
  | cons c t ih =>
    cases t with
    | nil => rfl
    | cons d t' =>
      rw [List.map_cons, List.map_cons,
        show wsNlFree (quoteMap c :: quoteMap d :: t'.map quoteMap) =
          (!(isHT (quoteMap c) && isNl (quoteMap d)) &&
            wsNlFree (quoteMap d :: t'.map quoteMap)) from rfl,
        quoteMap_isHT, quoteMap_isNl, wsNlFree_two h]
      have := ih (wsNlFree_tail h)
      rw [List.map_cons] at this
      rw [this]
      rfl

/-- The quote map preserves the two-newline head test. -/
theorem twoNl_map_quoteMap (l : List Char) : twoNl (l.map quoteMap) = twoNl l := by
  match l with
  | [] => rfl
  | [c] => rfl
  | c :: d :: t =>
    rw [List.map_cons, List.map_cons,
      show twoNl (quoteMap c :: quoteMap d :: t.map quoteMap) =
        (isNl (quoteMap c) && isNl (quoteMap d)) from rfl,
      quoteMap_isNl, quoteMap_isNl]
    rfl

/-- The quote map preserves triple-newline freedom. -/
theorem noTripleNl_map_quoteMap {l : List Char} (h : noTripleNl l = true) :
    noTripleNl (l.map quoteMap) = true := by
  induction l with
  | nil => rfl
  | cons c t ih =>
    rw [List.map_cons]
    refine noTripleNl_cons ?_ (ih (noTripleNl_tail h))
    intro hnl
    rw [quoteMap_isNl] at hnl
    rw [twoNl_map_quoteMap]
    exact noTripleNl_two h hnl

/-- Whitespace-newline freedom restricts to a left factor. -/
theorem wsNlFree_append_left {a b : List Char} (h : wsNlFree (a ++ b) = true) :
    wsNlFree a = true := by
  induction a with
  | nil => rfl
  | cons c a' ih =>
    rw [List.cons_append] at h
    have ht := ih (wsNlFree_tail h)
    cases a' with
    | nil => rfl
    | cons d t =>
      rw [show wsNlFree (c :: d :: t) = (!(isHT c && isNl d) && wsNlFree (d :: t))
        from rfl]
      rw [List.cons_append] at h
      rw [wsNlFree_two h]
      rw [ht]
      rfl

/-- Triple-newline freedom restricts to a left factor. -/
theorem noTripleNl_append_left {a b : List Char} (h : noTripleNl (a ++ b) = true) :
    noTripleNl a = true := by
  induction a with
  | nil => rfl
  | cons c a' ih =>
    rw [List.cons_append] at h
    have ht := ih (noTripleNl_tail h)
    refine noTripleNl_cons ?_ ht
    intro hnl
    have h2 := noTripleNl_two h hnl
    cases a' with
    | nil => rfl
    | cons d t =>
      cases t with
      | nil => rfl
      | cons e t' =>
        rw [show twoNl (d :: e :: t') = (isNl d && isNl e) from rfl]
        rw [List.cons_append, List.cons_append] at h2
        rw [show twoNl (d :: e :: (t' ++ b)) = (isNl d && isNl e) from rfl] at h2
        exact h2

/-- Whitespace-newline freedom survives dropping a run from the front. -/
theorem wsNlFree_dropWhile (p : Char → Bool) {l : List Char}
    (h : wsNlFree l = true) : wsNlFree (l.dropWhile p) = true := by
  induction l with
  | nil => rfl
  | cons c t ih =>
    rw [List.dropWhile_cons]
    by_cases hp : p c = true
    · rw [if_pos hp]; exact ih (wsNlFree_tail h)
    · rw [if_neg hp]; exact h

/-- Triple-newline freedom survives dropping a run from the front. -/
theorem noTripleNl_dropWhile (p : Char → Bool) {l : List Char}
    (h : noTripleNl l = true) : noTripleNl (l.dropWhile p) = true := by
  induction l with
  | nil => rfl
  | cons c t ih =>
    rw [List.dropWhile_cons]
    by_cases hp : p c = true
    · rw [if_pos hp]; exact ih (noTripleNl_tail h)
    · rw [if_neg hp]; exact h

/-- Whitespace-newline freedom survives stripping. -/
theorem wsNlFree_pyStrip {l : List Char} (h : wsNlFree l = true) :
    wsNlFree (pyStrip l) = true := by
  have h1 : wsNlFree (l.dropWhile isPyWS) = true := wsNlFree_dropWhile isPyWS h
  have hpre := List.rdropWhile_prefix isPyWS (l.dropWhile isPyWS)
  obtain ⟨t, ht⟩ := hpre
  have h2 : wsNlFree (List.rdropWhile isPyWS (l.dropWhile isPyWS)) = true :=
    wsNlFree_append_left (ht ▸ h1)
  simpa [pyStrip, List.rdropWhile] using h2

/-- Triple-newline freedom survives stripping. -/
theorem noTripleNl_pyStrip {l : List Char} (h : noTripleNl l = true) :
    noTripleNl (pyStrip l) = true := by
  have h1 : noTripleNl (l.dropWhile isPyWS) = true := noTripleNl_dropWhile isPyWS h
  have hpre := List.rdropWhile_prefix isPyWS (l.dropWhile isPyWS)
  obtain ⟨t, ht⟩ := hpre
  have h2 : noTripleNl (List.rdropWhile isPyWS (l.dropWhile isPyWS)) = true :=
    noTripleNl_append_left (ht ▸ h1)
  simpa [pyStrip, List.rdropWhile] using h2

/-- Under whitespace-newline freedom, a run led by a space or tab never ends
at a newline. -/
theorem runEndsAtNl_false_of_wsNlFree {rest : List Char} :
    ∀ {c : Char}, isHT c = true → wsNlFree (c :: rest) = true →
      runEndsAtNl rest = false := by
  induction rest with
  | nil => intro c _ _; rfl
  | cons d t ih =>
    intro c hc h
    have hpair := wsNlFree_two h
    rw [hc, Bool.true_and] at hpair
    by_cases hd : isHT d = true
    · rw [runEndsAtNl_ht d t hd]
      exact ih hd (wsNlFree_tail h)
    · simp only [Bool.not_eq_true] at hd
      have hdn : d ≠ '\n' := by simpa [isNl] using hpair
      exact runEndsAtNl_other d t hd hdn

/-- A whitespace-newline-free string is a fixed point of the pointwise
collapse. -/
theorem specT2_id_of_wsNlFree {cs : List Char} (h : wsNlFree cs = true) :
    specT2 cs = cs := by
  induction cs with
  | nil => rfl
  | cons c rest ih =>
    rw [show specT2 (c :: rest) =
      (if isHT c && runEndsAtNl rest then specT2 rest else c :: specT2 rest)
      from rfl]
    have hcond : (isHT c && runEndsAtNl rest) = false := by
      by_cases hc : isHT c = true
      · rw [hc, Bool.true_and]
        exact runEndsAtNl_false_of_wsNlFree hc h
      · simp only [Bool.not_eq_true] at hc
        rw [hc, Bool.false_and]
    rw [hcond]
    simp [ih (wsNlFree_tail h)]

/-- A triple-newline-free string is a fixed point of the right-fold
collapse. -/
theorem specT3_id_of_noTriple {cs : List Char} (h : noTripleNl cs = true) :
    specT3 cs = cs := by
  induction cs with
  | nil => rfl
  | cons c rest ih =>
    have hrest := ih (noTripleNl_tail h)
    rw [show specT3 (c :: rest) =
      (if c = '\n' && twoNl (specT3 rest) then specT3 rest else c :: specT3 rest)
      from rfl, hrest]
    have hcond : (c = '\n' && twoNl rest) = false := by
      by_cases hc : c = '\n'
      · have hnl : isNl c = true := by simp [isNl, hc]
        rw [noTripleNl_two h hnl, Bool.and_false]
      · simp [hc]
    rw [hcond]
    simp

/-- The one-pass amended bullet expansion leaves no bullet glyph behind. -/
theorem expand_amended_no_bullet {c : Char} {cs : List Char}
    (h : c ∈ expandBy bulletMapAmended cs) : c ≠ '•' ∧ c ≠ '●' ∧ c ≠ '–' := by
  induction cs with
  | nil => simp [expandBy] at h
  | cons d rest ih =>
    rw [expandBy_cons] at h
    rcases List.mem_append.mp h with h | h
    · unfold bulletMapAmended at h
      by_cases h1 : (d = '•' || d = '●') = true
      · rw [if_pos h1] at h
        rcases List.mem_cons.mp h with h | h
        · subst h; refine ⟨by decide, by decide, by decide⟩
        · rcases List.mem_singleton.mp h with rfl
          refine ⟨by decide, by decide, by decide⟩
      · rw [if_neg h1] at h
        by_cases h2 : d = '–'
        · rw [if_pos h2] at h
          rcases List.mem_singleton.mp h with rfl
          refine ⟨by decide, by decide, by decide⟩
        · rw [if_neg h2] at h
          rcases List.mem_singleton.mp h with rfl
          simp only [Bool.or_eq_true, decide_eq_true_eq] at h1
          push_neg at h1
          exact ⟨h1.1, h1.2, h2⟩
    · exact ih h

/-- A bullet-free string is a fixed point of the bullet expansion. -/
theorem expand_amended_id {cs : List Char}
    (h : ∀ c ∈ cs, c ≠ '•' ∧ c ≠ '●' ∧ c ≠ '–') :
    expandBy bulletMapAmended cs = cs := by
  induction cs with
  | nil => rfl
  | cons d rest ih =>
    rw [expandBy_cons]
    have hd := h d (List.mem_cons_self d rest)
    have hmap : bulletMapAmended d = [d] := by
      simp [bulletMapAmended, hd.1, hd.2.1, hd.2.2]
    rw [hmap]
    simp [ih fun c hc => h c (List.mem_cons_of_mem d hc)]

/-- The quote map never creates a bullet glyph. -/
theorem quoteMap_preserves_not_bullet {c : Char}
    (h : c ≠ '•' ∧ c ≠ '●' ∧ c ≠ '–') :
    quoteMap c ≠ '•' ∧ quoteMap c ≠ '●' ∧ quoteMap c ≠ '–' := by
  unfold quoteMap
  by_cases h1 : (c = '‘' || c = '’') = true
  · rw [if_pos h1]; refine ⟨by decide, by decide, by decide⟩
  · rw [if_neg h1]
    by_cases h2 : (c = '“' || c = '”') = true
    · rw [if_pos h2]; refine ⟨by decide, by decide, by decide⟩
    · rw [if_neg h2]; exact h

/-- A curly-free string is a fixed point of the quote map. -/
theorem map_quoteMap_id {cs : List Char} (h : noCurly cs = true) :
    cs.map quoteMap = cs := by
  induction cs with
  | nil => rfl
  | cons c t ih =>
    unfold noCurly at h
    rw [List.all_cons, Bool.and_eq_true_iff] at h
    rw [List.map_cons, quoteMap_id_of_not_curly h.1, ih h.2]

/-- The leading-run drop of an already-dropped string restricted again from
the right is still fully dropped. -/
theorem dropWhile_rdropWhile_self {p : Char → Bool} {y : List Char}
    (hy : y.dropWhile p = y) :
    (List.rdropWhile p y).dropWhile p = List.rdropWhile p y := by
  obtain ⟨t, ht⟩ := List.rdropWhile_prefix p y
  cases hx : List.rdropWhile p y with
  | nil => simp
  | cons a x' =>
    rw [hx] at ht
    have hpa : p a = false := by
      have hy2 := hy
      rw [← ht, List.cons_append, List.dropWhile_cons] at hy2
      by_cases hp : p a = true
      · rw [if_pos hp] at hy2
        have hlen := congrArg List.length hy2
        have hsub := (List.dropWhile_sublist (l := x' ++ t) p).length_le
        simp only [List.length_cons, List.length_append] at hlen hsub
        omega
      · simpa using hp
    rw [List.dropWhile_cons, hpa]
    simp

/-- Python strip is idempotent. -/
theorem pyStrip_idem (l : List Char) : pyStrip (pyStrip l) = pyStrip l := by
  have hps : ∀ z : List Char,
      pyStrip z = List.rdropWhile isPyWS (z.dropWhile isPyWS) := fun z => rfl
  rw [hps, hps l]
  have hyy : (l.dropWhile isPyWS).dropWhile isPyWS = l.dropWhile isPyWS :=
    List.dropWhile_idempotent isPyWS l
  rw [dropWhile_rdropWhile_self hyy]
  exact List.rdropWhile_idempotent isPyWS (l.dropWhile isPyWS)

/-- List-level form of preclean idempotence and output hygiene. -/
theorem precleanL_idem_clean (x : List Char) :
    precleanL (precleanL x) = precleanL x ∧
    noTripleNl (precleanL x) = true ∧ noCurly (precleanL x) = true := by
  have hy : precleanL x =
      pyStrip ((specT3 (specT2 (expandBy bulletMapAmended x))).map quoteMap) :=
    precleanL_pipeline x
  set z := (specT3 (specT2 (expandBy bulletMapAmended x))).map quoteMap with hzdef
  have hnb : ∀ c ∈ pyStrip z, c ≠ '•' ∧ c ≠ '●' ∧ c ≠ '–' := by
    intro c hcy
    have hcz : c ∈ z := mem_pyStrip hcy
    rw [hzdef] at hcz
    obtain ⟨d, hd, rfl⟩ := List.mem_map.mp hcz
    have hd2 : d ∈ expandBy bulletMapAmended x := mem_specT2 (mem_specT3 hd)
    exact quoteMap_preserves_not_bullet (expand_amended_no_bullet hd2)
  have hnc : noCurly (pyStrip z) = true := by
    unfold noCurly
    rw [List.all_eq_true]
    intro c hcy
    have hcz : c ∈ z := mem_pyStrip hcy
    rw [hzdef] at hcz
    obtain ⟨d, hd, rfl⟩ := List.mem_map.mp hcz
    exact quoteMap_not_curly d
  have hw : wsNlFree (pyStrip z) = true := by
    refine wsNlFree_pyStrip ?_
    rw [hzdef]
    exact wsNlFree_map_quoteMap (wsNlFree_specT3 (specT2_wsNlFree _))
  have h3 : noTripleNl (pyStrip z) = true := by
    refine noTripleNl_pyStrip ?_
    rw [hzdef]
    exact noTripleNl_map_quoteMap (specT3_noTriple _)
  have hid : precleanL (pyStrip z) = pyStrip z := by
    rw [precleanL_pipeline, expand_amended_id hnb, specT2_id_of_wsNlFree hw,
      specT3_id_of_noTriple h3, map_quoteMap_id hnc]
    exact pyStrip_idem z
  rw [hy]
  exact ⟨hid, h3, hnc⟩

/-- Claim C9: preclean is idempotent, and its output never contains a run of
three or more consecutive newlines nor any curly quote or curly
apostrophe. -/
theorem preclean_idempotent_clean (s : String) :
    preclean (preclean s) = preclean s ∧
    noTripleNl (preclean s).data = true ∧
    noCurly (preclean s).data = true := by
  obtain ⟨h1, h2, h3⟩ := precleanL_idem_clean s.data
  refine ⟨?_, h2, h3⟩
  show (⟨precleanL (preclean s).data⟩ : String) = ⟨precleanL s.data⟩
  exact congrArg String.mk h1

/-- Lookup after setting the same key. -/
theorem assocGet_assocSet_self {α : Type} (pd : List (String × α)) (k : String)
    (v : α) : assocGet (assocSet pd k v) k = some v := by
  induction pd with
  | nil => simp [assocSet, assocGet]
  | cons kv rest ih =>
    obtain ⟨k', v'⟩ := kv
    unfold assocSet
    by_cases h : k' = k
    · rw [if_pos h]
      simp [assocGet]
    · rw [if_neg h]
      unfold assocGet
      rw [if_neg h]
      exact ih

/-- Lookup after setting a different key. -/
theorem assocGet_assocSet_ne {α : Type} (pd : List (String × α)) {k k' : String}
    (v : α) (h : k' ≠ k) : assocGet (assocSet pd k v) k' = assocGet pd k' := by
  induction pd with
  | nil => simp [assocSet, assocGet, Ne.symm h]
  | cons kv rest ih =>
    obtain ⟨k0, v0⟩ := kv
    unfold assocSet
    by_cases h0 : k0 = k
    · rw [if_pos h0]
      unfold assocGet
      rw [if_neg (Ne.symm h), if_neg (fun he : k0 = k' => (Ne.symm h) (h0 ▸ he))]
    · rw [if_neg h0]
      unfold assocGet
      by_cases h1 : k0 = k'
      · rw [if_pos h1, if_pos h1]
      · rw [if_neg h1, if_neg h1]
        exact ih

/-- A successful lookup means the key is present. -/
theorem assocHas_of_get {α : Type} {pd : List (String × α)} {k : String} {v : α}
    (h : assocGet pd k = some v) : assocHas pd k = true := by
  induction pd with
  | nil => simp [assocGet] at h
  | cons kv rest ih =>
    obtain ⟨k0, v0⟩ := kv
    unfold assocGet at h
    unfold assocHas
    by_cases h0 : k0 = k
    · simp [h0]
    · rw [if_neg h0] at h
      simp only [List.any_cons]
      have hr := ih h
      unfold assocHas at hr
      rw [hr]
      simp

/-- The completeness pass preserves every present key-value pair. -/
theorem ensureRequired_get {pd : List (String × JValue)} {k : String} {v : JValue}
    (h : assocGet pd k = some v) : assocGet (ensureRequired pd) k = some v := by
  unfold ensureRequired
  have hgen : ∀ (fs : List String) (pd : List (String × JValue)),
      assocGet pd k = some v →
      assocGet (fs.foldl (fun pd field =>
        if assocHas pd field then pd else assocSet pd field (requiredZero field)) pd) k
        = some v := by
    intro fs
    induction fs with
    | nil => intro pd h; exact h
    | cons f fs' ih =>
      intro pd h
      rw [List.foldl_cons]
      refine ih _ ?_
      by_cases hh : assocHas pd f = true
      · rw [if_pos hh]; exact h
      · rw [if_neg hh]
        by_cases hk : k = f
        · subst hk
          exact absurd (assocHas_of_get h) hh
        · rw [assocGet_assocSet_ne _ _ hk]
          exact h
  exact hgen requiredFields pd h

/-- Values of a string-or-null contact object are strings or null. -/
theorem strOrNull_of_get {fs : List (String × JValue)}
    (h : isObjOfStrOrNull (JValue.obj fs) = true) {k : String} {v : JValue}
    (hv : assocGet fs k = some v) : v = JValue.null ∨ ∃ s, v = JValue.str s := by
  induction fs with
  | nil => simp [assocGet] at hv
  | cons kv rest ih =>
    obtain ⟨k0, v0⟩ := kv
    have h' : ((k0, v0) :: rest).all (fun kv => strOrNullVal kv.2) = true := h
    rw [List.all_cons, Bool.and_eq_true_iff] at h'
    unfold assocGet at hv
    by_cases h0 : k0 = k
    · rw [if_pos h0] at hv
      obtain rfl := Option.some.inj hv
      cases v0 with
      | null => exact Or.inl rfl
      | str s => exact Or.inr ⟨s, rfl⟩
      | boolean b => exact absurd h'.1 (by simp [strOrNullVal])
      | num n => exact absurd h'.1 (by simp [strOrNullVal])
      | arr xs => exact absurd h'.1 (by simp [strOrNullVal])
      | obj fs' => exact absurd h'.1 (by simp [strOrNullVal])
    · rw [if_neg h0] at hv
      exact ih h'.2 hv

/-- Setting a string value keeps a contact object string-or-null. -/
theorem strOrNull_set_str {fs : List (String × JValue)}
    (h : isObjOfStrOrNull (JValue.obj fs) = true) (k : String) (nm : String) :
    isObjOfStrOrNull (JValue.obj (assocSet fs k (JValue.str nm))) = true := by
  induction fs with
  | nil => rfl
  | cons kv rest ih =>
    obtain ⟨k0, v0⟩ := kv
    have h' : ((k0, v0) :: rest).all (fun kv => strOrNullVal kv.2) = true := h
    rw [List.all_cons, Bool.and_eq_true_iff] at h'
    unfold assocSet
    by_cases h0 : k0 = k
    · rw [if_pos h0]
      show ((k, JValue.str nm) :: rest).all (fun kv => strOrNullVal kv.2) = true
      rw [List.all_cons, Bool.and_eq_true_iff]
      exact ⟨rfl, h'.2⟩
    · rw [if_neg h0]
      have hrest : (assocSet rest k (JValue.str nm)).all
          (fun kv => strOrNullVal kv.2) = true := ih h'.2
      show ((k0, v0) :: assocSet rest k (JValue.str nm)).all
        (fun kv => strOrNullVal kv.2) = true
      rw [List.all_cons, Bool.and_eq_true_iff]
      exact ⟨h'.1, hrest⟩

/-- Setting null keeps a contact object string-or-null. -/
theorem strOrNull_set_null {fs : List (String × JValue)}
    (h : isObjOfStrOrNull (JValue.obj fs) = true) (k : String) :
    isObjOfStrOrNull (JValue.obj (assocSet fs k JValue.null)) = true := by
  induction fs with
  | nil => rfl
  | cons kv rest ih =>
    obtain ⟨k0, v0⟩ := kv
    have h' : ((k0, v0) :: rest).all (fun kv => strOrNullVal kv.2) = true := h
    rw [List.all_cons, Bool.and_eq_true_iff] at h'
    unfold assocSet
    by_cases h0 : k0 = k
    · rw [if_pos h0]
      show ((k, JValue.null) :: rest).all (fun kv => strOrNullVal kv.2) = true
      rw [List.all_cons, Bool.and_eq_true_iff]
      exact ⟨rfl, h'.2⟩
    · rw [if_neg h0]
      have hrest : (assocSet rest k JValue.null).all
          (fun kv => strOrNullVal kv.2) = true := ih h'.2
      show ((k0, v0) :: assocSet rest k JValue.null).all
        (fun kv => strOrNullVal kv.2) = true
      rw [List.all_cons, Bool.and_eq_true_iff]
      exact ⟨h'.1, hrest⟩

/-- Sequencing an exception-free step runs the continuation. -/
theorem exceptStep_ok {α β : Type} {e : Except Unit α} {a : α}
    (f : α → Except Unit β) (h : e = Except.ok a) : exceptStep e f = f a := by
  rw [h]
  rfl

/-- On a string-or-null contact object the name re-validation step always
succeeds and returns an object. -/
theorem contactNameCheck_ok {fs : List (String × JValue)} (text : String)
    (h : isObjOfStrOrNull (JValue.obj fs) = true) :
    ∃ fs', contactNameCheck (JValue.obj fs) text = Except.ok (JValue.obj fs') := by
  unfold contactNameCheck
  by_cases ht : pyTruthyJ (JValue.obj fs) = true
  · rw [if_pos ht,
      exceptStep_ok _ (show jMemName (JValue.obj fs)
        = Except.ok (assocHas fs "name") from rfl)]
    cases hb : assocHas fs "name"
    · exact ⟨fs, rfl⟩
    · show ∃ fs', exceptStep (wipeJ (assocGet fs "name") text)
        (fun w => jSetName (JValue.obj fs) (jOfOpt w)) = Except.ok (JValue.obj fs')
      cases hv : assocGet fs "name" with
      | none => exact ⟨assocSet fs "name" JValue.null, rfl⟩
      | some v =>
        rcases strOrNull_of_get h hv with rfl | ⟨s, rfl⟩
        · exact ⟨assocSet fs "name" JValue.null, rfl⟩
        · by_cases hs : s = ""
          · subst hs
            exact ⟨assocSet fs "name" (JValue.str ""), rfl⟩
          · have htr : pyTruthyJ (JValue.str s) = true := by
              simp [pyTruthyJ]
              exact hs
            have hw : wipeJ (some (JValue.str s)) text =
                Except.ok (if listContains (lettersOnly s) (lettersOnly text)
                  then some (JValue.str s) else none) := by
              show (if (!pyTruthyJ (JValue.str s)) = true
                  then Except.ok (some (JValue.str s))
                  else Except.ok (if listContains (lettersOnly s) (lettersOnly text)
                    then some (JValue.str s) else none)) = _
              rw [htr]
              rfl
            rw [exceptStep_ok _ hw]
            by_cases hc : listContains (lettersOnly s) (lettersOnly text) = true
            · rw [if_pos hc]
              exact ⟨assocSet fs "name" (JValue.str s), rfl⟩
            · rw [if_neg hc]
              exact ⟨assocSet fs "name" JValue.null, rfl⟩
  · rw [if_neg ht]
    exact ⟨fs, rfl⟩

/-- The contact chunk under a conforming or failing response yields a
string-or-null object. -/
theorem parse_contact_shape (ch : String) (rContact : Except Unit JValue)
    (h : ∀ v, rContact = Except.ok v → isObjOfStrOrNull v = true) :
    ∃ fs, (parse_contact_info_chunk ch rContact).1 = JValue.obj fs ∧
      isObjOfStrOrNull (JValue.obj fs) = true := by
  unfold parse_contact_info_chunk
  by_cases hstrip : pyStripStr ch = ""
  · rw [if_pos hstrip]
    exact ⟨[], rfl, rfl⟩
  · rw [if_neg hstrip]
    cases rContact with
    | error e => exact ⟨[], rfl, rfl⟩
    | ok v =>
      have hv := h v rfl
      cases v with
      | obj fs => exact ⟨fs, rfl, hv⟩
      | null => exact absurd hv (by simp [isObjOfStrOrNull])
      | boolean b => exact absurd hv (by simp [isObjOfStrOrNull])
      | num n => exact absurd hv (by simp [isObjOfStrOrNull])
      | str s => exact absurd hv (by simp [isObjOfStrOrNull])
      | arr xs => exact absurd hv (by simp [isObjOfStrOrNull])

/-- Under a conforming or failing response, assembling the contact field
always yields an object. -/
theorem assembleContact_obj (segments : List (String × String)) (text : String)
    (rContact : Except Unit JValue)
    (h : ∀ v, rContact = Except.ok v → isObjOfStrOrNull v = true) :
    ∃ fs, assembleContact segments text rContact = JValue.obj fs := by
  obtain ⟨fs, hfs, hprop⟩ := parse_contact_shape
    (segGet segments "contact_info_section") rContact h
  have hblock : ∃ fs', contactTryBlock segments text rContact =
      Except.ok (JValue.obj fs') := by
    unfold contactTryBlock
    simp only []
    rw [hfs]
    by_cases hnm : segGet segments "candidate_name_text" ≠ ""
    · rw [if_pos hnm]
      obtain ⟨fs', hok⟩ := contactNameCheck_ok text
        (strOrNull_set_str hprop "name" (segGet segments "candidate_name_text"))
      show ∃ x, exceptStep (contactNameCheck
          (JValue.obj (assocSet fs "name"
            (JValue.str (segGet segments "candidate_name_text")))) text)
          (fun ci2 => Except.ok (if pyTruthyJ ci2 then ci2 else JValue.obj []))
          = Except.ok (JValue.obj x)
      rw [exceptStep_ok _ hok]
      by_cases htr : pyTruthyJ (JValue.obj fs') = true
      · rw [if_pos htr]
        exact ⟨fs', rfl⟩
      · rw [if_neg htr]
        exact ⟨[], rfl⟩
    · rw [if_neg hnm]
      obtain ⟨fs', hok⟩ := contactNameCheck_ok text hprop
      show ∃ x, exceptStep (contactNameCheck (JValue.obj fs) text)
          (fun ci2 => Except.ok (if pyTruthyJ ci2 then ci2 else JValue.obj []))
          = Except.ok (JValue.obj x)
      rw [exceptStep_ok _ hok]
      by_cases htr : pyTruthyJ (JValue.obj fs') = true
      · rw [if_pos htr]
        exact ⟨fs', rfl⟩
      · rw [if_neg htr]
        exact ⟨[], rfl⟩
  obtain ⟨fs', hb⟩ := hblock
  unfold assembleContact
  rw [hb]
  exact ⟨fs', rfl⟩

/-- A failing contact response gives the empty contact object. -/
theorem parse_contact_error_chunk (ch : String) :
    (parse_contact_info_chunk ch (Except.error ())).1 = JValue.obj [] := by
  unfold parse_contact_info_chunk
  split <;> rfl

/-- When the contact extractor fails and the segmenter produced no candidate
name, the assembled contact field is the empty object. -/
theorem assembleContact_default (segments : List (String × String)) (text : String)
    (hnm : segGet segments "candidate_name_text" = "") :
    assembleContact segments text (Except.error ()) = JValue.obj [] := by
  unfold assembleContact contactTryBlock
  rw [parse_contact_error_chunk, hnm]
  rfl

/-- A failing work-experience response yields the empty list. -/
theorem parse_work_error (ch : String) :
    (parse_work_experience_chunk ch (Except.error ())).1 = JValue.arr [] := by
  unfold parse_work_experience_chunk
  split <;> rfl

/-- A failing education response yields the empty list. -/
theorem parse_education_error (ch : String) :
    (parse_education_chunk ch (Except.error ())).1 = JValue.arr [] := by
  unfold parse_education_chunk
  split <;> rfl

/-- A failing skills response yields the four empty skill lists. -/
theorem parse_skills_error (ch : String) :
    (parse_skills_chunk ch (Except.error ())).1 = skillsZero := by
  unfold parse_skills_chunk
  split <;> rfl

/-- A failing projects response yields the empty list. -/
theorem parse_projects_error (ch : String) :
    (parse_projects_chunk ch (Except.error ())).1 = JValue.arr [] := by
  unfold parse_projects_chunk
  split <;> rfl

/-- A conforming or failing work-experience response never yields null. -/
theorem parse_work_nonnull (ch : String) (r : Except Unit JValue)
    (h : ∀ v, r = Except.ok v → isArrOfObj v = true) :
    (parse_work_experience_chunk ch r).1 ≠ JValue.null := by
  unfold parse_work_experience_chunk
  split
  · exact fun hx => JValue.noConfusion hx
  · cases r with
    | error e => exact fun hx => JValue.noConfusion hx
    | ok v =>
      have hv := h v rfl
      cases v <;> simp [isArrOfObj] at hv ⊢

/-- A conforming or failing education response never yields null. -/
theorem parse_education_nonnull (ch : String) (r : Except Unit JValue)
    (h : ∀ v, r = Except.ok v → isArrOfObj v = true) :
    (parse_education_chunk ch r).1 ≠ JValue.null := by
  unfold parse_education_chunk
  split
  · exact fun hx => JValue.noConfusion hx
  · cases r with
    | error e => exact fun hx => JValue.noConfusion hx
    | ok v =>
      have hv := h v rfl
      cases v <;> simp [isArrOfObj] at hv ⊢

/-- A conforming or failing projects response never yields null. -/
theorem parse_projects_nonnull (ch : String) (r : Except Unit JValue)
    (h : ∀ v, r = Except.ok v → isArrOfObj v = true) :
    (parse_projects_chunk ch r).1 ≠ JValue.null := by
  unfold parse_projects_chunk
  split
  · exact fun hx => JValue.noConfusion hx
  · cases r with
    | error e => exact fun hx => JValue.noConfusion hx
    | ok v =>
      have hv := h v rfl
      cases v <;> simp [isArrOfObj] at hv ⊢

/-- A conforming or failing skills response never yields null. -/
theorem parse_skills_nonnull (ch : String) (r : Except Unit JValue)
    (h : ∀ v, r = Except.ok v → isObjB v = true) :
    (parse_skills_chunk ch r).1 ≠ JValue.null := by
  unfold parse_skills_chunk
  split
  · exact fun hx => JValue.noConfusion hx
  · cases r with
    | error e => exact fun hx => JValue.noConfusion hx
    | ok v =>
      have hv := h v rfl
      cases v <;> simp [isObjB] at hv ⊢

/-- Claim C1: for every segment dictionary, source text and combination of
extractor outcomes (schema-conforming responses or failures, including every
extractor failing), parse_resume returns a record with all five required
top-level fields present and non-null, each failing extractor leaving its
field's canonical zero value; assembly is a total function, so it never
raises. -/
theorem parse_resume_required (segments : List (String × String)) (text : String)
    (rContact rWork rEdu rSkills : Except Unit JValue)
    (rSummary : Except Unit String)
    (rCerts rProj rLang rAwards : Except Unit JValue)
    (hContact : ∀ v, rContact = Except.ok v → isObjOfStrOrNull v = true)
    (hWork : ∀ v, rWork = Except.ok v → isArrOfObj v = true)
    (hEdu : ∀ v, rEdu = Except.ok v → isArrOfObj v = true)
    (hSkills : ∀ v, rSkills = Except.ok v → isObjB v = true)
    (hProj : ∀ v, rProj = Except.ok v → isArrOfObj v = true) :
    parse_resume_complete segments rContact rWork rEdu rSkills rProj
      (parse_resume segments text rContact rWork rEdu rSkills rSummary rCerts
        rProj rLang rAwards) := by
  have hR : parse_resume segments text rContact rWork rEdu rSkills rSummary
      rCerts rProj rLang rAwards
      = ensureRequired (assocSet (assocSet (assocSet (assocSet (assocSet
          (assocSet (assocSet (assocSet (assocSet
            ([] : List (String × JValue))
            "contact_info" (assembleContact segments text rContact))
            "work_experience" (parse_work_experience_chunk
              (segGet segments "work_experience_section") rWork).1)
            "education" (parse_education_chunk
              (segGet segments "education_section") rEdu).1)
            "skills" (parse_skills_chunk
              (segGet segments "skills_section") rSkills).1)
            "summary" (JValue.str (parse_summary_chunk
              (segGet segments "summary_section") rSummary).1))
            "certifications" (parse_certifications_chunk
              (segGet segments "certifications_section") rCerts).1)
            "projects" (parse_projects_chunk
              (segGet segments "projects_section") rProj).1)
            "languages" (parse_languages_chunk
              (segGet segments "languages_section") rLang).1)
            "awards" (parse_awards_chunk
              (segGet segments "awards_section") rAwards).1) := rfl
  have hgetC : assocGet (parse_resume segments text rContact rWork rEdu rSkills
      rSummary rCerts rProj rLang rAwards) "contact_info"
      = some (assembleContact segments text rContact) := by
    rw [hR]
    refine ensureRequired_get ?_
    rw [assocGet_assocSet_ne _ _ (show "contact_info" ≠ "awards" by decide),
      assocGet_assocSet_ne _ _ (show "contact_info" ≠ "languages" by decide),
      assocGet_assocSet_ne _ _ (show "contact_info" ≠ "projects" by decide),
      assocGet_assocSet_ne _ _ (show "contact_info" ≠ "certifications" by decide),
      assocGet_assocSet_ne _ _ (show "contact_info" ≠ "summary" by decide),
      assocGet_assocSet_ne _ _ (show "contact_info" ≠ "skills" by decide),
      assocGet_assocSet_ne _ _ (show "contact_info" ≠ "education" by decide),
      assocGet_assocSet_ne _ _ (show "contact_info" ≠ "work_experience" by decide),
      assocGet_assocSet_self]
  have hgetW : assocGet (parse_resume segments text rContact rWork rEdu rSkills
      rSummary rCerts rProj rLang rAwards) "work_experience"
      = some (parse_work_experience_chunk
          (segGet segments "work_experience_section") rWork).1 := by
    rw [hR]
    refine ensureRequired_get ?_
    rw [assocGet_assocSet_ne _ _ (show "work_experience" ≠ "awards" by decide),
      assocGet_assocSet_ne _ _ (show "work_experience" ≠ "languages" by decide),
      assocGet_assocSet_ne _ _ (show "work_experience" ≠ "projects" by decide),
      assocGet_assocSet_ne _ _ (show "work_experience" ≠ "certifications" by decide),
      assocGet_assocSet_ne _ _ (show "work_experience" ≠ "summary" by decide),
      assocGet_assocSet_ne _ _ (show "work_experience" ≠ "skills" by decide),
      assocGet_assocSet_ne _ _ (show "work_experience" ≠ "education" by decide),
      assocGet_assocSet_self]
  have hgetE : assocGet (parse_resume segments text rContact rWork rEdu rSkills
      rSummary rCerts rProj rLang rAwards) "education"
      = some (parse_education_chunk
          (segGet segments "education_section") rEdu).1 := by
    rw [hR]
    refine ensureRequired_get ?_
    rw [assocGet_assocSet_ne _ _ (show "education" ≠ "awards" by decide),
      assocGet_assocSet_ne _ _ (show "education" ≠ "languages" by decide),
      assocGet_assocSet_ne _ _ (show "education" ≠ "projects" by decide),
      assocGet_assocSet_ne _ _ (show "education" ≠ "certifications" by decide),
      assocGet_assocSet_ne _ _ (show "education" ≠ "summary" by decide),
      assocGet_assocSet_ne _ _ (show "education" ≠ "skills" by decide),
      assocGet_assocSet_self]
  have hgetS : assocGet (parse_resume segments text rContact rWork rEdu rSkills
      rSummary rCerts rProj rLang rAwards) "skills"
      = some (parse_skills_chunk (segGet segments "skills_section") rSkills).1 := by
    rw [hR]
    refine ensureRequired_get ?_
    rw [assocGet_assocSet_ne _ _ (show "skills" ≠ "awards" by decide),
      assocGet_assocSet_ne _ _ (show "skills" ≠ "languages" by decide),
      assocGet_assocSet_ne _ _ (show "skills" ≠ "projects" by decide),
      assocGet_assocSet_ne _ _ (show "skills" ≠ "certifications" by decide),
      assocGet_assocSet_ne _ _ (show "skills" ≠ "summary" by decide),
      assocGet_assocSet_self]
  have hgetP : assocGet (parse_resume segments text rContact rWork rEdu rSkills
      rSummary rCerts rProj rLang rAwards) "projects"
      = some (parse_projects_chunk (segGet segments "projects_section") rProj).1 := by
    rw [hR]
    refine ensureRequired_get ?_
    rw [assocGet_assocSet_ne _ _ (show "projects" ≠ "awards" by decide),
      assocGet_assocSet_ne _ _ (show "projects" ≠ "languages" by decide),
      assocGet_assocSet_self]
  refine ⟨?_, ?_, ?_, ?_, ?_, ?_⟩
  · intro f hf
    fin_cases hf
    · obtain ⟨fs, hobj⟩ := assembleContact_obj segments text rContact hContact
      exact ⟨JValue.obj fs, by rw [hgetC, hobj], fun hx => JValue.noConfusion hx⟩
    · exact ⟨_, hgetW, parse_work_nonnull _ _ hWork⟩
    · exact ⟨_, hgetE, parse_education_nonnull _ _ hEdu⟩
    · exact ⟨_, hgetS, parse_skills_nonnull _ _ hSkills⟩
    · exact ⟨_, hgetP, parse_projects_nonnull _ _ hProj⟩
  · intro he
    subst he
    rw [hgetW, parse_work_error]
  · intro he
    subst he
    rw [hgetE, parse_education_error]
  · intro he
    subst he
    rw [hgetS, parse_skills_error]
  · intro he
    subst he
    rw [hgetP, parse_projects_error]
  · intro he hnm
    subst he
    rw [hgetC, assembleContact_default segments text hnm]

/-- Concrete instance: every inference call fails and segmentation produced
nothing, so the assembled record carries exactly the canonical zero values in
its required fields. -/
theorem parse_resume_required_witness :
    parse_resume_complete [] (Except.error ()) (Except.error ()) (Except.error ())
      (Except.error ()) (Except.error ())
      (parse_resume [] "" (Except.error ()) (Except.error ()) (Except.error ())
        (Except.error ()) (Except.error ()) (Except.error ()) (Except.error ())
        (Except.error ()) (Except.error ())) :=
  parse_resume_required [] "" (Except.error ()) (Except.error ()) (Except.error ())
    (Except.error ()) (Except.error ()) (Except.error ()) (Except.error ())
    (Except.error ()) (Except.error ())
    (fun v h => nomatch h) (fun v h => nomatch h) (fun v h => nomatch h)
    (fun v h => nomatch h) (fun v h => nomatch h)
